import Mathlib

/-!
Shallow embedding of the influenza autocuration pipeline (`Autocuration.py`).

Modelling conventions:
* Python integers are `Int` (unbounded, so no overflow arithmetic is needed);
  column indices are `Nat`, and Python sets of column indices are `Finset Nat`.
* Fallible code paths are `Except PyErr`; an uncaught Python exception is an
  `Except.error`.
* Python strings are `String` (in Lean 4.14 a `String` wraps a `List Char`,
  which the kernel can evaluate); the flag labels containing an apostrophe are
  written with the escape `\x27`.
* `self.nkip` is stored in the source as a sorted numpy array and `self.nkdp`
  as a set; both are modelled as the `Finset` of their elements.  A count
  `len([i for i in s if P i])` over either is the card of the filtered
  `Finset`, since the comprehension produces one entry per element.
-/

/-- Errors raised by the modelled Python code paths. -/
inductive PyErr where
  | idxErr : PyErr
  | keyErr : String → PyErr
  | valueErr : PyErr
  | zeroDiv : PyErr
  | unboundLocal : PyErr
  | exn : String → PyErr
  deriving DecidableEq

/-- One emitted flag record `(FlagRow, Profile Position, Query Position, Variant, Length)`. -/
structure FlagRow where
  kind : String
  profilePos : String
  queryPos : String
  variant : String
  length : ℕ
  deriving DecidableEq

/-- One row of the parsed boundary table (`Region`, `Start`, `End`). -/
structure RegionRow where
  region : String
  start : ℤ
  rend : ℤ
  deriving DecidableEq

/-- One row of the parsed per-profile lookup (whitelist) table. -/
structure LookupRow where
  flag : String
  start : ℤ
  rend : ℤ
  deriving DecidableEq

/-- `startsWithL s t`: the list `s` starts with `t` (Python `str.startswith`). -/
def startsWithL : List Char → List Char → Bool
  | _, [] => true
  | [], _ :: _ => false
  | a :: s, b :: t => a == b && startsWithL s t

/-- `hasSubL s t`: `t` occurs as a contiguous sublist of `s`. -/
def hasSubL : List Char → List Char → Bool
  | [], t => startsWithL [] t
  | c :: s, t => startsWithL (c :: s) t || hasSubL s t

/-- Python substring test `t in s` on strings. -/
def strContains (s t : String) : Bool :=
  hasSubL s.data t.data

/-- Dash (gap) column positions of one alignment row, as in
`set([i for i, ltr in enumerate(seq) if ltr == "-"])`. -/
def dashPositions (s : List Char) : Finset ℕ :=
  (Finset.range s.length).filter (fun i => s.getD i 'x' = '-')

/-- `len([i for i in s if i < j])`, as an integer. -/
def cntLt (s : Finset ℕ) (j : ℕ) : ℤ :=
  ((s.filter (fun i => i < j)).card : ℤ)

/-- `len([i for i in s if i <= j])`, as an integer. -/
def cntLe (s : Finset ℕ) (j : ℕ) : ℤ :=
  ((s.filter (fun i => i ≤ j)).card : ℤ)

/-- Canonical profile position of alignment column `c`:
`(c - len([i for i in nkip if i < c])) + 1` (source lines 533/540). -/
def col_to_prof (nkip : Finset ℕ) (c : ℕ) : ℤ :=
  (c : ℤ) - cntLt nkip c + 1

/-- Query position used for deletion columns (gap-preceding convention):
`(c - len([i for i in nkdp if i <= c])) + 1` (source line 541). -/
def col_to_qry (nkdp : Finset ℕ) (c : ℕ) : ℤ :=
  (c : ℤ) - cntLe nkdp c + 1

/-- Profile position recorded for an insertion column:
`(c - len([i for i in nkip if i <= c])) + 1` (source lines 532/606). -/
def profInsPos (nkip : Finset ℕ) (c : ℕ) : ℤ :=
  (c : ℤ) - cntLe nkip c + 1

/-- Query position of an insertion (or substitution) column:
`(c - len([i for i in nkdp if i < c])) + 1` (source lines 607/689). -/
def qryInsPos (nkdp : Finset ℕ) (c : ℕ) : ℤ :=
  (c : ℤ) - cntLt nkdp c + 1

/-- Helper for grouping consecutive integers: the current run is accumulated
(reversed) in `cur`, `prev` is its last element. -/
def splitRunsGo (prev : ℕ) (cur : List ℕ) : List ℕ → List (List ℕ)
  | [] => [cur.reverse]
  | x :: xs =>
    if x = prev + 1 then splitRunsGo x (x :: cur) xs
    else cur.reverse :: splitRunsGo x [x] xs

/-- Group a list into maximal runs of consecutive integers, mirroring
`groupby(enumerate(xs), lambda ix: ix[0] - ix[1])` of the source. -/
def splitRuns : List ℕ → List (List ℕ)
  | [] => []
  | x :: xs => splitRunsGo x [x] xs

/-- The elements of `s` in increasing order (`np.sort` of a set of column
indices); `bound` is any strict upper bound for the members of `s`. -/
def sortAsc (s : Finset ℕ) (bound : ℕ) : List ℕ :=
  (List.range bound).filter (fun i => decide (i ∈ s))

/-- An upper bound on the column indices occurring in the alignment rows. -/
def colBound (sequences : List (List Char)) : ℕ :=
  sequences.foldl (fun a s => max a s.length) 0

/-- The data computed by `InDelSubs.__init__` from the profile-plus-query
alignment (last row is the query). -/
structure InDelSubs where
  nkdp : Finset ℕ
  nkip : Finset ℕ
  nkadp : Finset ℕ
  query_seq : List Char
  profile_seqs : List (List Char)
  del_groups : List (List ℕ)
  ins_groups : List (List ℕ)
  deriving DecidableEq

/-- `InDelSubs.__init__`: derive the query-gap columns `nkdp`, the insertion
columns `nkip` (gaps conserved across the whole profile but absent from the
query), the accepted intra-profile gap columns `nkadp`, and the maximal
consecutive runs of flaggable deletions and of insertions. -/
def mkInDelSubs (sequences : List (List Char)) : InDelSubs :=
  let query_seq := sequences.getLastD []
  let profile_seqs := sequences.dropLast
  let nkdp := dashPositions query_seq
  let first_seq_dashes := dashPositions (profile_seqs.headD [])
  let profile_seqs_minus := profile_seqs.tail
  let profile_dash_union :=
    profile_seqs_minus.foldl (fun acc s => acc ∪ dashPositions s) first_seq_dashes
  let profile_dash_intsct :=
    profile_seqs_minus.foldl (fun acc s => acc ∩ dashPositions s) first_seq_dashes
  let nkip := profile_dash_intsct \ nkdp
  let nkadp := profile_dash_union \ nkip
  let bound := colBound sequences
  let del_groups := splitRuns (sortAsc (nkdp \ nkadp) bound)
  let ins_groups := splitRuns (sortAsc nkip bound)
  ⟨nkdp, nkip, nkadp, query_seq, profile_seqs, del_groups, ins_groups⟩

/-- Sequence a list of fallible flag computations in order, concatenating the
results; the first raised error aborts the whole loop (Python semantics). -/
def collectE : List (Except PyErr (List FlagRow)) → Except PyErr (List FlagRow)
  | [] => .ok []
  | x :: xs =>
    match x with
    | .error e => .error e
    | .ok l =>
      match collectE xs with
      | .error e => .error e
      | .ok ls => .ok (l ++ ls)

/-- Decidable equality of modelled Python results (used to evaluate the
engine on concrete inputs). -/
def exceptDecEq {a b : Type} [DecidableEq a] [DecidableEq b] : DecidableEq (Except a b)
  | .ok x, .ok y => if h : x = y then isTrue (by rw [h]) else isFalse (by simp [h])
  | .ok _, .error _ => isFalse (by simp)
  | .error _, .ok _ => isFalse (by simp)
  | .error x, .error y => if h : x = y then isTrue (by rw [h]) else isFalse (by simp [h])

instance {a b : Type} [DecidableEq a] [DecidableEq b] : DecidableEq (Except a b) :=
  exceptDecEq

/-- `InDelSubs.check_lookup`: PASS iff some whitelist row has the same flag
label and its range covers `[start, e]`. -/
def InDelSubs.check_lookup (lookup_df : List LookupRow) (flag : String) (start e : ℤ) : String :=
  if (lookup_df.filter (fun r => decide (r.flag = flag ∧ r.start ≤ start ∧ r.rend ≥ e))).length > 0
  then "PASS" else "FAIL"

/-- The query-coordinate image `start_q`/`end_q` of a profile coordinate `p`:
`p + len([i for i in all_profile_ins if i < p]) - len([j for j in all_profile_del if j <= p])`
(source lines 557-558), with the comprehension counts expressed as filtered
cards over the underlying column sets. -/
def regPosQ (nkip nkdp : Finset ℕ) (p : ℤ) : ℤ :=
  p + ((nkip.filter (fun i => profInsPos nkip i < p)).card : ℤ)
    - ((nkdp.filter (fun j => col_to_prof nkip j ≤ p)).card : ℤ)

/-- `region_dels_p = [i for i in profile_del if start_p <= i <= end_p]`. -/
def regionDelsP (profile_del : List ℤ) (start_p end_p : ℤ) : List ℤ :=
  profile_del.filter (fun i => decide (start_p ≤ i ∧ i ≤ end_p))

/-- `region_dels_q = [i for i in query_del if start_q <= i <= end_q]`. -/
def regionDelsQ (query_del : List ℤ) (start_q end_q : ℤ) : List ℤ :=
  query_del.filter (fun i => decide (start_q ≤ i ∧ i ≤ end_q))

/-- The region-keyed emission step of `deletion_flags` (source lines 569-592):
build the position strings and dispatch on the region name, applying the
whitelist to the NCR and CDS deletion flags.  `posLen` is `len(pos)`, the full
run length.  An empty `region_dels_p` makes `region_dels_p[0]` raise. -/
def delRegionEmit (lookup_df : List LookupRow) (posLen : ℕ) (region_dels_p : List ℤ)
    (q0 : ℤ) (region : String) : Except PyErr (List FlagRow) :=
  match region_dels_p with
  | [] => .error .idxErr
  | p0 :: ps =>
    let pLast := ps.getLastD p0
    let profile_pos :=
      if posLen > 1 then toString p0 ++ ".." ++ toString pLast else toString p0
    let query_pos := toString q0 ++ ".." ++ toString (q0 + 1)
    let n := (p0 :: ps).length
    if region = "CTS5" then
      .ok [⟨"5\x27CTS-del", profile_pos, query_pos, "del", n⟩]
    else if region = "CTS3" then
      .ok [⟨"3\x27CTS-del", profile_pos, query_pos, "del", n⟩]
    else if region = "NCR5" then
      if InDelSubs.check_lookup lookup_df "5\x27NCR-del" p0 pLast = "FAIL" then
        .ok [⟨"5\x27NCR-del", profile_pos, query_pos, "del", n⟩]
      else .ok []
    else if region = "NCR3" then
      if InDelSubs.check_lookup lookup_df "3\x27NCR-del" p0 pLast = "FAIL" then
        .ok [⟨"3\x27NCR-del", profile_pos, query_pos, "del", n⟩]
      else .ok []
    else if region = "CDS" then
      if posLen % 3 = 0 then
        if InDelSubs.check_lookup lookup_df "CDS-3Xdel" p0 pLast = "FAIL" then
          .ok [⟨"CDS-3Xdel", profile_pos, query_pos, "del", n⟩]
        else .ok []
      else
        if InDelSubs.check_lookup lookup_df "CDS-del" p0 pLast = "FAIL" then
          .ok [⟨"CDS-del", profile_pos, query_pos, "del", n⟩]
        else .ok []
    else .ok []

/-- Processing of one boundary region for one deletion run (source lines
548-592): compute the query-adjusted region bounds, the in-region deletion
position lists, apply the terminal-truncation test on `region_dels_q[0]`
(`Lq` is `len(query_seq) - len(nkdp)`), then emit. -/
def delRegionOutcome (lookup_df : List LookupRow) (nkip nkdp : Finset ℕ) (Lq : ℤ)
    (posLen : ℕ) (profile_del query_del : List ℤ) (reg : RegionRow) :
    Except PyErr (List FlagRow) :=
  let start_q := regPosQ nkip nkdp reg.start
  let end_q := regPosQ nkip nkdp reg.rend
  match regionDelsQ query_del start_q end_q with
  | [] => .error .idxErr
  | q0 :: _ =>
    if q0 = 0 ∨ q0 = Lq then .ok []
    else delRegionEmit lookup_df posLen (regionDelsP profile_del reg.start reg.rend) q0 reg.region

/-- `InDelSubs.deletion_flags`: for every maximal deletion run, find all
boundary regions its profile span overlaps and process each. -/
def InDelSubs.deletion_flags (self : InDelSubs) (boundary_df : List RegionRow)
    (lookup_df : List LookupRow) : Except PyErr (List FlagRow) :=
  let Lq : ℤ := (self.query_seq.length : ℤ) - (self.nkdp.card : ℤ)
  collectE (self.del_groups.map (fun pos =>
    let profile_del := pos.map (fun j => col_to_prof self.nkip j)
    let query_del := pos.map (fun j => col_to_qry self.nkdp j)
    match profile_del with
    | [] => .error .idxErr
    | ph :: pt =>
      let regions := boundary_df.filter (fun r => decide (r.start ≤ pt.getLastD ph ∧ r.rend ≥ ph))
      collectE (regions.map (fun reg =>
        delRegionOutcome lookup_df self.nkip self.nkdp Lq pos.length profile_del query_del reg))))

/-- Uppercase a char list into a `String` (Python `str.upper()` on the
alignment alphabet). -/
def strUpper (l : List Char) : String :=
  ⟨l.map Char.toUpper⟩

/-- Processing of one insertion run by `insertion_flags` (source lines
602-639): terminal extensions at canonical profile position 0 / profile
length, otherwise dispatch on the single overlapped region. -/
def insRunOutcome (boundary_df : List RegionRow) (profile_length : ℤ)
    (nkip nkdp : Finset ℕ) (query_seq : List Char) (pos : List ℕ) :
    Except PyErr (List FlagRow) :=
  match pos with
  | [] => .error .idxErr
  | p0 :: ps =>
    let pLast := ps.getLastD p0
    let ins_muts := strUpper ((query_seq.drop p0).take (pLast + 1 - p0))
    let pi0 := profInsPos nkip p0
    let piLast := profInsPos nkip pLast
    let qi0 := qryInsPos nkdp p0
    let qiLast := qryInsPos nkdp pLast
    let n := (p0 :: ps).length
    let query_pos := if n > 1 then toString qi0 ++ ".." ++ toString qiLast else toString qi0
    let profile_pos := toString pi0 ++ ".." ++ toString (pi0 + 1)
    if pi0 = 0 then
      .ok [⟨"5\x27NCR-ext", profile_pos, query_pos, ins_muts, n⟩]
    else if pi0 = profile_length then
      .ok [⟨"3\x27NCR-ext", toString pi0 ++ "..", query_pos, ins_muts, n⟩]
    else
      match (boundary_df.filter (fun r => decide (r.start ≤ piLast ∧ r.rend ≥ pi0))).head? with
      | none => .error .idxErr
      | some reg =>
        if reg.region = "CTS5" then
          .ok [⟨"5\x27CTS-ins", profile_pos, query_pos, ins_muts, n⟩]
        else if reg.region = "CTS3" then
          .ok [⟨"3\x27CTS-ins", profile_pos, query_pos, ins_muts, n⟩]
        else if reg.region = "NCR5" then
          .ok [⟨"5\x27NCR-ins", profile_pos, query_pos, ins_muts, n⟩]
        else if reg.region = "NCR3" then
          .ok [⟨"3\x27NCR-ins", profile_pos, query_pos, ins_muts, n⟩]
        else if reg.region = "CDS" then
          if n % 3 = 0 then
            .ok [⟨"CDS-3Xins", profile_pos, query_pos, ins_muts, n⟩]
          else
            .ok [⟨"CDS-ins", profile_pos, query_pos, ins_muts, n⟩]
        else .ok []

/-- `InDelSubs.insertion_flags`: `profile_length` is `boundary_df["End"][4]`,
then every insertion run is processed independently.  No whitelist is
consulted anywhere in this method. -/
def InDelSubs.insertion_flags (self : InDelSubs) (boundary_df : List RegionRow) :
    Except PyErr (List FlagRow) :=
  match boundary_df[4]? with
  | none => .error .idxErr
  | some row4 =>
    collectE (self.ins_groups.map (fun pos =>
      insRunOutcome boundary_df row4.rend self.nkip self.nkdp self.query_seq pos))

/-- `splitRuns` over integers (used for the 3-prime CTS substitution columns,
which the source shifts by an integer offset before grouping). -/
def splitRunsZGo (prev : ℤ) (cur : List ℤ) : List ℤ → List (List ℤ)
  | [] => [cur.reverse]
  | x :: xs =>
    if x = prev + 1 then splitRunsZGo x (x :: cur) xs
    else cur.reverse :: splitRunsZGo x [x] xs

/-- Group an integer list into maximal runs of consecutive integers. -/
def splitRunsZ : List ℤ → List (List ℤ)
  | [] => []
  | x :: xs => splitRunsZGo x [x] xs

/-- `len([i for i in s if i < z])` where `z` is a Python int that may be
negative (comparison of a column index with an integer offset). -/
def cntLtZ (s : Finset ℕ) (z : ℤ) : ℤ :=
  ((s.filter (fun (i : ℕ) => (i : ℤ) < z)).card : ℤ)

/-- `col_to_prof` applied to an integer-valued position (3-prime CTS path). -/
def col_to_profZ (nkip : Finset ℕ) (z : ℤ) : ℤ :=
  z - cntLtZ nkip z + 1

/-- `qryInsPos` applied to an integer-valued position (3-prime CTS path). -/
def qryInsPosZ (nkdp : Finset ℕ) (z : ℤ) : ℤ :=
  z - cntLtZ nkdp z + 1

/-- Python membership `z in s` of an integer in a set of column indices. -/
def memZ (s : Finset ℕ) (z : ℤ) : Prop :=
  0 ≤ z ∧ z.toNat ∈ s

instance (s : Finset ℕ) (z : ℤ) : Decidable (memZ s z) := by
  unfold memZ
  infer_instance

/-- Python slice `l[a : b]` for the non-negative indices produced by sane
boundary files (negative Python indices would wrap; here they clamp to 0). -/
def pySlice (l : List Char) (a b : ℤ) : List Char :=
  (l.drop a.toNat).take (b - a).toNat

/-- `sum([len(g) for g in ins_groups if g[0] < bound])`: total size of the
insertion runs whose first column precedes `bound` (source lines 658-660). -/
def insAdjust (ins_groups : List (List ℕ)) (bound : ℤ) : ℤ :=
  (((ins_groups.filter (fun g => decide ((g.headD 0 : ℤ) < bound))).map List.length).sum : ℤ)

/-- Processing of one run of CTS substitution columns (source lines 683-698
and 701-715): drop N-only runs, else emit a CTS mutation flag.  `pos` is
given in integer coordinates; `label` is the flag label. -/
def ctsRunOutcome (nkip nkdp : Finset ℕ) (query_seq : List Char) (label : String)
    (pos : List ℤ) : Except PyErr (List FlagRow) :=
  match pos with
  | [] => .error .idxErr
  | p0 :: ps =>
    let pLast := ps.getLastD p0
    let subsList := (pySlice query_seq p0 (pLast + 1)).map Char.toUpper
    let subs : String := ⟨subsList⟩
    if subsList ≠ [] ∧ subsList.all (fun c => c = 'N') then .ok []
    else
      let profile_sub := pos.map (fun j => col_to_profZ nkip j)
      let query_sub := pos.map (fun j => qryInsPosZ nkdp j)
      let n := (p0 :: ps).length
      let profile_pos :=
        if n > 1 then
          toString (col_to_profZ nkip p0) ++ ".." ++ toString ((profile_sub.tail).getLastD (col_to_profZ nkip p0))
        else toString (col_to_profZ nkip p0)
      let query_pos :=
        if n > 1 then
          toString (qryInsPosZ nkdp p0) ++ ".." ++ toString ((query_sub.tail).getLastD (qryInsPosZ nkdp p0))
        else toString (qryInsPosZ nkdp p0)
      .ok [⟨label, profile_pos, query_pos, subs, n⟩]

/-- `InDelSubs.substitution_flags` (source lines 644-717): strict consensus
mismatches inside the insertion-adjusted 5-prime and 3-prime CTS windows,
grouped into runs, N-only runs suppressed. -/
def InDelSubs.substitution_flags (self : InDelSubs) (boundary_df : List RegionRow) :
    Except PyErr (List FlagRow) := do
  let CTS5row ←
    match (boundary_df.filter (fun r => r.region == "CTS5")).head? with
    | none => Except.error PyErr.idxErr
    | some r => Except.ok r
  let CTS3row ←
    match (boundary_df.filter (fun r => r.region == "CTS3")).head? with
    | none => Except.error PyErr.idxErr
    | some r => Except.ok r
  let CTS5_start := CTS5row.start - 1
  let CTS3_start := CTS3row.start - 1
  let CTS5_end := CTS5row.rend - 1
  let CTS3_end := CTS3row.rend - 1
  let CTS5_start_adj := CTS5_start
  let CTS3_start_adj := CTS3_start + insAdjust self.ins_groups CTS3_start
  let CTS5_end_adj := CTS5_end + insAdjust self.ins_groups CTS5_end
  let CTS3_end_adj := CTS3_end + insAdjust self.ins_groups CTS3_end
  let CTS5_query := pySlice self.query_seq CTS5_start_adj (CTS5_end_adj + 1)
  let CTS3_query := pySlice self.query_seq CTS3_start_adj (CTS3_end_adj + 1)
  let cts5_muts := (List.range CTS5_query.length).filter (fun i =>
    decide (CTS5_query.getD i '?' ∉
        self.profile_seqs.map (fun s => (pySlice s CTS5_start_adj (CTS5_end_adj + 1)).getD i '?') ∧
      ¬(i ∈ self.nkip ∨ i ∈ self.nkdp)))
  let cts3_muts := ((List.range CTS3_query.length).filter (fun i =>
    decide (CTS3_query.getD i '?' ∉
        self.profile_seqs.map (fun s => (pySlice s CTS3_start_adj (CTS3_end_adj + 1)).getD i '?') ∧
      ¬(memZ self.nkip ((i : ℤ) + CTS3_start_adj) ∨ memZ self.nkdp ((i : ℤ) + CTS3_start_adj))))).map
    (fun i => (i : ℤ) + CTS3_start_adj)
  let flags5 ← collectE ((splitRuns cts5_muts).map (fun pos =>
    ctsRunOutcome self.nkip self.nkdp self.query_seq "5\x27CTS-mutf" (pos.map (fun i => (i : ℤ)))))
  let flags3 ← collectE ((splitRunsZ cts3_muts).map (fun pos =>
    ctsRunOutcome self.nkip self.nkdp self.query_seq "3\x27CTS-mutf" pos))
  pure (flags5 ++ flags3)

/-- `str.count` of one character (case handled by the callers). -/
def countChar (s : List Char) (c : Char) : ℕ :=
  (s.filter (fun x => x == c)).length

/-- `MolSeq.count_regular_nucs`. -/
def count_regular_nucs (s : List Char) : ℕ :=
  countChar s 'a' + countChar s 'A' + countChar s 'c' + countChar s 'C' +
    countChar s 'g' + countChar s 'G' + countChar s 't' + countChar s 'T'

/-- `MolSeq.count_indeterminate_nucs`. -/
def count_indeterminate_nucs (s : List Char) : ℕ :=
  countChar s 'n' + countChar s 'N'

/-- `MolSeq.get_n_content` (exact rational division; the caller must rule out
the empty sequence, on which Python raises `ZeroDivisionError`). -/
def get_n_content (s : List Char) : ℚ :=
  (count_indeterminate_nucs s : ℚ) / (s.length : ℚ)

/-- `MolSeq.get_ambig_content`. -/
def get_ambig_content (s : List Char) : ℚ :=
  ((s.length : ℚ) - ((count_regular_nucs s : ℚ) + (count_indeterminate_nucs s : ℚ))) /
    (s.length : ℚ)

/-- Split a char list on a single-character separator (Python `str.split`
with a one-character separator; `"".split(sep) == [""]`). -/
def splitOnChar (sep : Char) : List Char → List (List Char)
  | [] => [[]]
  | c :: rest =>
    match splitOnChar sep rest with
    | [] => [[c]]
    | g :: gs => if c = sep then [] :: g :: gs else (c :: g) :: gs

/-- Split a char list on the two-character separator `".."` (Python
`str.split("..")`, left-to-right, non-overlapping). -/
def splitDots : List Char → List (List Char)
  | [] => [[]]
  | '.' :: '.' :: rest => [] :: splitDots rest
  | c :: rest =>
    match splitDots rest with
    | [] => [[c]]
    | g :: gs => (c :: g) :: gs

/-- Value of a non-empty all-digit char list. -/
def digitsVal (l : List Char) : Option ℕ :=
  match l with
  | [] => none
  | _ =>
    if l.all Char.isDigit then some (l.foldl (fun a c => a * 10 + (c.toNat - 48)) 0)
    else none

/-- Python `int(str)` on the tokens of the reference files (optional minus
sign followed by digits; anything else raises `ValueError`). -/
def parseIntL (l : List Char) : Option ℤ :=
  match l with
  | '-' :: rest => (digitsVal rest).map (fun n => -(n : ℤ))
  | _ => (digitsVal l).map (fun n => (n : ℤ))

/-- Python dict lookup: the most recent binding of `k` wins; a missing key
raises `KeyError`. -/
def dictGet (d : List (String × ℤ)) (k : String) : Except PyErr ℤ :=
  match d.reverse.find? (fun p => p.1 == k) with
  | some p => .ok p.2
  | none => .error (.keyErr k)

/-- Parse one `FEAT=n` token of a boundary line (source lines 342-345):
`coord.split("=")[0]` is the feature, `int(coord.split("=")[1])` the value. -/
def parseCoord (coord : List Char) : Except PyErr (String × ℤ) :=
  match splitOnChar '=' coord with
  | [] => .error .idxErr
  | [_] => .error .idxErr
  | feat :: v :: _ =>
    match parseIntL v with
    | none => .error .valueErr
    | some n => .ok (⟨feat⟩, n)

/-- Processing of the selected boundary line (source lines 339-351): split
it on `"|"`, drop the leading strain field, build the feature dict, and
assemble the five region rows.  On the empty string (no line matched) the
dict is empty and the lookup of `START` raises `KeyError`. -/
def parse_boundary_line (boundary : String) : Except PyErr (List RegionRow) := do
  let coords := (splitOnChar '|' boundary.data).tail
  let boundaries ← coords.foldlM (fun d c => do
    let kv ← parseCoord c
    pure (d ++ [kv])) []
  let vSTART ← dictGet boundaries "START"
  let vCTS5 ← dictGet boundaries "CTS5"
  let vATG ← dictGet boundaries "ATG"
  let vSTOP ← dictGet boundaries "STOP"
  let vCTS3 ← dictGet boundaries "CTS3"
  let vEND ← dictGet boundaries "END"
  pure [⟨"CTS5", vSTART, vCTS5⟩, ⟨"NCR5", vCTS5 + 1, vATG - 1⟩, ⟨"CDS", vATG, vSTOP⟩,
    ⟨"NCR3", vSTOP + 1, vCTS3 - 1⟩, ⟨"CTS3", vCTS3, vEND⟩]

/-- `Curation.parse_boundary_file`: the selected line is the *first* line
that *starts with* `strain_name` (an empty string when none does), then it
is processed by `parse_boundary_line`. -/
def parse_boundary_file (strain_name : String) (lines : List String) :
    Except PyErr (List RegionRow) :=
  parse_boundary_line ((lines.find? (fun l => startsWithL l.data strain_name.data)).getD "")

/-- `Curation.parse_lookup_table`: one whitelist row per line that starts
with the profile name; `range` is `n` or `n..m`; an empty selection yields
the sentinel row `(XXX, -1, -1)`. -/
def parse_lookup_table (profile : String) (lines : List String) :
    Except PyErr (List LookupRow) := do
  let rows ← (lines.filter (fun l => startsWithL l.data profile.data)).foldlM (fun acc line => do
    match splitOnChar '\t' line.data with
    | _ :: flag :: range :: _ =>
      match splitDots range with
      | [a, b] =>
        match parseIntL a, parseIntL b with
        | some s, some e => pure (acc ++ [LookupRow.mk ⟨flag⟩ s e])
        | _, _ => Except.error PyErr.valueErr
      | a :: _ =>
        match parseIntL a with
        | some s => pure (acc ++ [LookupRow.mk ⟨flag⟩ s s])
        | none => Except.error PyErr.valueErr
      | [] => Except.error PyErr.idxErr
    | _ => Except.error PyErr.idxErr) []
  if rows ≠ [] then pure rows else pure [⟨"XXX", -1, -1⟩]

/-- The state of a constructed `Curation` object: either the early-return
sentinel state of an Unknown profile (which leaves the flag attributes
unset), or the fully populated state. -/
inductive CurState where
  | unknown (accession : String)
  | full (profile : String) (identity : ℚ) (strain_name : String)
      (mut_flags del_flags ins_flags sub_flags : List FlagRow)
      (ambig_flags : List String) (accession : String)
  deriving DecidableEq

/-- Result of the flag accessor methods: a sentinel string or a table. -/
inductive CurOut where
  | str (s : String)
  | table (rows : List FlagRow)
  deriving DecidableEq

/-- Result of `Curation.ambiguity_flags`: a sentinel string or the list. -/
inductive AmbOut where
  | str (s : String)
  | flags (l : List String)
  deriving DecidableEq

/-- `Curation.mutation_flags`. -/
def Curation.mutation_flags : CurState → CurOut
  | .unknown _ => .str "Unknown"
  | .full _ _ _ mutf _ _ _ _ _ => if mutf = [] then .str "Pass" else .table mutf

/-- `Curation.deletion_flags` (the accessor on the constructed object). -/
def Curation.deletion_flags : CurState → CurOut
  | .unknown _ => .str "Unknown"
  | .full _ _ _ _ del _ _ _ _ => if del = [] then .str "Pass" else .table del

/-- `Curation.insertion_flags` (the accessor on the constructed object). -/
def Curation.insertion_flags : CurState → CurOut
  | .unknown _ => .str "Unknown"
  | .full _ _ _ _ _ ins _ _ _ => if ins = [] then .str "Pass" else .table ins

/-- `Curation.substitution_flags` (the accessor on the constructed object). -/
def Curation.substitution_flags : CurState → CurOut
  | .unknown _ => .str "Unknown"
  | .full _ _ _ _ _ _ sub _ _ => if sub = [] then .str "Pass" else .table sub

/-- `Curation.ambiguity_flags`. -/
def Curation.ambiguity_flags : CurState → AmbOut
  | .unknown _ => .str "Excess-Dist"
  | .full _ _ _ _ _ _ _ ambig _ => if ambig = [] then .str "Pass" else .flags ambig

/-- `Curation.summary_flag` (source lines 134-146). -/
def Curation.summary_flag : CurState → String
  | .unknown _ => "Ambig-Seq"
  | .full profile _ _ mutf _ _ _ ambig _ =>
    if profile = "Unknown" ∨ ambig ≠ [] then "Ambig-Seq"
    else if mutf.any (fun f => strContains f.kind "CDS") then "Flag-CDS"
    else if mutf.any (fun f => strContains f.kind "NCR" || strContains f.kind "CTS") then "Flag-NCR"
    else "Pass"

/-- `Curation.__init__` from the profile decision onward (source lines
53-102): the Unknown early return precedes every use of the boundary file,
lookup table and alignment; then the reference files are parsed, the
ambiguity screen runs (comparing the possibly-unassigned `identity`, which
in Python raises `UnboundLocalError` when the strain name was supplied), and
the three flag methods are combined.  The externally computed MUSCLE
alignment enters as `alignment_seqs`. -/
def curationInitCore (accession : String) (sequence : List Char) (profile : String)
    (strain_name : String) (identity : Option ℚ) (boundary_lines lookup_lines : List String)
    (alignment_seqs : List (List Char)) : Except PyErr CurState :=
  if profile = "Unknown" then .ok (.unknown accession)
  else do
    let boundary_df ← parse_boundary_file strain_name boundary_lines
    let lookup_df ← parse_lookup_table profile lookup_lines
    if sequence.length = 0 then Except.error PyErr.zeroDiv
    else do
      let a1 : List String := if get_n_content sequence > 1/200 then ["Excess-N"] else []
      let a2 := a1 ++ (if get_ambig_content sequence > 1/200 then ["Excess-Ambig"] else [])
      match identity with
      | none => Except.error PyErr.unboundLocal
      | some idq => do
        let ambig_flags := a2 ++ (if idq < 4/5 then ["Excess-Dist"] else [])
        let muts := mkInDelSubs alignment_seqs
        let del_flags ← muts.deletion_flags boundary_df lookup_df
        let ins_flags ← muts.insertion_flags boundary_df
        let sub_flags ← muts.substitution_flags boundary_df
        pure (.full profile idq strain_name (del_flags ++ ins_flags ++ sub_flags)
          del_flags ins_flags sub_flags ambig_flags accession)

/-- The supplied-strain-name path of `Curation.__init__` (source lines
40-45): pick the first profile file whose name starts with the strain name;
the BLAST step is skipped, so `identity` is never assigned (`none`). -/
def curationInitStrain (profile_dir_files : List String) (strain_name : String)
    (accession : String) (sequence : List Char) (boundary_lines lookup_lines : List String)
    (alignment_seqs : List (List Char)) : Except PyErr CurState :=
  match profile_dir_files.filter (fun f => startsWithL f.data strain_name.data) with
  | [] => .error (.exn "Invalid profiles directory or strain name")
  | profile :: _ =>
    curationInitCore accession sequence profile strain_name none boundary_lines lookup_lines
      alignment_seqs

/-- The BLAST path of `Curation.__init__` (source lines 47-51): the profile,
identity and strain name come from the classifier, so `identity` is bound. -/
def curationInitBlast (blast_profile : String) (blast_identity : ℚ) (blast_strain : String)
    (accession : String) (sequence : List Char) (boundary_lines lookup_lines : List String)
    (alignment_seqs : List (List Char)) : Except PyErr CurState :=
  curationInitCore accession sequence blast_profile blast_strain (some blast_identity)
    boundary_lines lookup_lines alignment_seqs

/-- `t` occurs as a contiguous substring of `s` (specification form of the
Python `in` test used by `summary_flag`). -/
def SubStr (t s : String) : Prop :=
  ∃ l r : List Char, s.data = l ++ t.data ++ r

/-- Inverse of `col_to_prof`: the alignment column of canonical profile
position `p` is the `(p-1)`-th non-insertion column (0-based). -/
def prof_to_col (nkip : Finset ℕ) (L : ℕ) (p : ℤ) : Option ℕ :=
  ((List.range L).filter (fun c => decide (c ∉ nkip)))[(p - 1).toNat]?

/-- Inverse of `col_to_qry`: the alignment column of canonical query
position `q` is the `(q-1)`-th non-deletion column (0-based). -/
def qry_to_col (nkdp : Finset ℕ) (L : ℕ) (q : ℤ) : Option ℕ :=
  ((List.range L).filter (fun c => decide (c ∉ nkdp)))[(q - 1).toNat]?

/-- The all-profile-gap column set `X` (fold of intersections, starting from
the first profile row, as in `InDelSubs.__init__`). -/
def profileDashIntsct (profile_seqs : List (List Char)) : Finset ℕ :=
  profile_seqs.tail.foldl (fun acc s => acc ∩ dashPositions s)
    (dashPositions (profile_seqs.headD []))

/-- The any-profile-gap column set `U` (fold of unions). -/
def profileDashUnion (profile_seqs : List (List Char)) : Finset ℕ :=
  profile_seqs.tail.foldl (fun acc s => acc ∪ dashPositions s)
    (dashPositions (profile_seqs.headD []))

/-! ## Basic lemmas on the derived column sets -/

theorem mem_foldl_union (l : List (List Char)) (init : Finset ℕ) (c : ℕ) :
    c ∈ l.foldl (fun acc s => acc ∪ dashPositions s) init ↔
      c ∈ init ∨ ∃ s ∈ l, c ∈ dashPositions s := by
  induction l generalizing init with
  | nil => simp
  | cons a l ih =>
    simp only [List.foldl_cons, ih, Finset.mem_union, List.mem_cons]
    constructor
    · rintro (( h | h) | ⟨s, hs, hc⟩)
      · exact Or.inl h
      · exact Or.inr ⟨a, Or.inl rfl, h⟩
      · exact Or.inr ⟨s, Or.inr hs, hc⟩
    · rintro (h | ⟨s, (rfl | hs), hc⟩)
      · exact Or.inl (Or.inl h)
      · exact Or.inl (Or.inr hc)
      · exact Or.inr ⟨s, hs, hc⟩

theorem mem_foldl_inter (l : List (List Char)) (init : Finset ℕ) (c : ℕ) :
    c ∈ l.foldl (fun acc s => acc ∩ dashPositions s) init ↔
      c ∈ init ∧ ∀ s ∈ l, c ∈ dashPositions s := by
  induction l generalizing init with
  | nil => simp
  | cons a l ih =>
    simp only [List.foldl_cons, ih, Finset.mem_inter, List.mem_cons]
    constructor
    · rintro ⟨⟨h1, h2⟩, h3⟩
      exact ⟨h1, fun s hs => hs.elim (fun h => h ▸ h2) (h3 s)⟩
    · rintro ⟨h1, h2⟩
      exact ⟨⟨h1, h2 a (Or.inl rfl)⟩, fun s hs => h2 s (Or.inr hs)⟩

/-- C4: for every parsed alignment the derived column sets satisfy
`I = X \ D` and `A = U \ I` (where `X` is the all-profile-gap set and `U`
the any-profile-gap set, characterised by the two membership equivalences),
and consequently `I ∩ D = ∅` and `A ∩ I = ∅`. -/
theorem column_sets_invariants (sequences : List (List Char))
    (h2 : 2 ≤ sequences.length) :
    (mkInDelSubs sequences).nkip =
      profileDashIntsct sequences.dropLast \ (mkInDelSubs sequences).nkdp ∧
    (mkInDelSubs sequences).nkadp =
      profileDashUnion sequences.dropLast \ (mkInDelSubs sequences).nkip ∧
    (∀ c, c ∈ profileDashIntsct sequences.dropLast ↔
      ∀ s ∈ sequences.dropLast, c ∈ dashPositions s) ∧
    (∀ c, c ∈ profileDashUnion sequences.dropLast ↔
      ∃ s ∈ sequences.dropLast, c ∈ dashPositions s) ∧
    (mkInDelSubs sequences).nkip ∩ (mkInDelSubs sequences).nkdp = ∅ ∧
    (mkInDelSubs sequences).nkadp ∩ (mkInDelSubs sequences).nkip = ∅ := by
  have hne : sequences.dropLast ≠ [] := by
    cases sequences with
    | nil => simp at h2
    | cons a l =>
      cases l with
      | nil => simp at h2
      | cons b m => simp [List.dropLast]
  refine ⟨rfl, rfl, ?_, ?_, ?_, ?_⟩
  · intro c
    obtain ⟨a, rest, hd⟩ : ∃ a rest, sequences.dropLast = a :: rest := by
      cases hx : sequences.dropLast with
      | nil => exact absurd hx hne
      | cons a rest => exact ⟨a, rest, rfl⟩
    rw [hd]
    unfold profileDashIntsct
    simp only [List.tail_cons, List.headD_cons, mem_foldl_inter, List.mem_cons]
    constructor
    · rintro ⟨h1, h2⟩ s hs
      exact hs.elim (fun h => h ▸ h1) (h2 s)
    · intro h
      exact ⟨h a (Or.inl rfl), fun s hs => h s (Or.inr hs)⟩
  · intro c
    unfold profileDashUnion
    rw [mem_foldl_union]
    cases hx : sequences.dropLast with
    | nil => exact absurd hx hne
    | cons a rest =>
      simp only [List.headD_cons, List.tail_cons, List.mem_cons]
      constructor
      · rintro (h | ⟨s, hs, hc⟩)
        · exact ⟨a, Or.inl rfl, h⟩
        · exact ⟨s, Or.inr hs, hc⟩
      · rintro ⟨s, (rfl | hs), hc⟩
        · exact Or.inl hc
        · exact Or.inr ⟨s, hs, hc⟩
  · exact Finset.sdiff_inter_self _ _
  · exact Finset.sdiff_inter_self _ _

theorem column_sets_invariants_witness :
    (mkInDelSubs [['A', '-'], ['-', 'A']]).nkip ∩ (mkInDelSubs [['A', '-'], ['-', 'A']]).nkdp = ∅ ∧
    (mkInDelSubs [['A', '-'], ['-', 'A']]).nkadp ∩ (mkInDelSubs [['A', '-'], ['-', 'A']]).nkip = ∅ :=
  ⟨(column_sets_invariants [['A', '-'], ['-', 'A']] (by decide)).2.2.2.2.1,
   (column_sets_invariants [['A', '-'], ['-', 'A']] (by decide)).2.2.2.2.2⟩

/-! ## Substring test and the summary flag -/

theorem startsWithL_iff (t s : List Char) :
    startsWithL s t = true ↔ ∃ r, s = t ++ r := by
  induction t generalizing s with
  | nil => simp [startsWithL]
  | cons b t ih =>
    cases s with
    | nil => simp [startsWithL]
    | cons a s =>
      simp only [startsWithL, Bool.and_eq_true, beq_iff_eq, ih, List.cons_append,
        List.cons.injEq]
      constructor
      · rintro ⟨rfl, r, rfl⟩
        exact ⟨r, rfl, rfl⟩
      · rintro ⟨r, rfl, rfl⟩
        exact ⟨rfl, r, rfl⟩

theorem hasSubL_iff (s t : List Char) :
    hasSubL s t = true ↔ ∃ l r, s = l ++ t ++ r := by
  induction s with
  | nil =>
    simp only [hasSubL, startsWithL_iff]
    constructor
    · rintro ⟨r, hr⟩
      exact ⟨[], r, by simpa using hr⟩
    · rintro ⟨l, r, h⟩
      obtain ⟨hl, ht, hr⟩ : l = [] ∧ t = [] ∧ r = [] := by
        rcases List.append_eq_nil.mp h.symm with ⟨h1, h2⟩
        rcases List.append_eq_nil.mp h1 with ⟨h3, h4⟩
        exact ⟨h3, h4, h2⟩
      exact ⟨[], by simp [ht, hr]⟩
  | cons c s ih =>
    simp only [hasSubL, Bool.or_eq_true, startsWithL_iff, ih]
    constructor
    · rintro (⟨r, hr⟩ | ⟨l, r, hr⟩)
      · exact ⟨[], r, by simpa using hr⟩
      · exact ⟨c :: l, r, by simp [hr]⟩
    · rintro ⟨l, r, hr⟩
      cases l with
      | nil => exact Or.inl ⟨r, by simpa using hr⟩
      | cons d l =>
        rcases List.cons.injEq c s d (l ++ t ++ r) ▸ hr with h
        simp only [List.cons_append, List.cons.injEq] at hr
        exact Or.inr ⟨l, r, hr.2⟩

theorem strContains_iff (s t : String) :
    strContains s t = true ↔ SubStr t s :=
  hasSubL_iff s.data t.data

theorem any_contains_iff (l : List FlagRow) (t : String) :
    (l.any (fun f => strContains f.kind t)) = true ↔ ∃ f ∈ l, SubStr t f.kind := by
  simp [List.any_eq_true, strContains_iff]

/-- C6: `summary_flag` first-match-wins precedence: `Ambig-Seq` when the
ambiguity list is non-empty (or the profile is Unknown); else `Flag-CDS`
when some mutation flag kind contains "CDS"; else `Flag-NCR` when some
mutation flag kind contains "NCR" or "CTS"; else `Pass`. -/
theorem summary_flag_precedence (profile strain : String) (idq : ℚ)
    (mutf del ins sub : List FlagRow) (ambig : List String) (acc : String)
    (hp : profile ≠ "Unknown") :
    (ambig ≠ [] →
      Curation.summary_flag (.full profile idq strain mutf del ins sub ambig acc) = "Ambig-Seq") ∧
    (ambig = [] → (∃ f ∈ mutf, SubStr "CDS" f.kind) →
      Curation.summary_flag (.full profile idq strain mutf del ins sub ambig acc) = "Flag-CDS") ∧
    (ambig = [] → ¬(∃ f ∈ mutf, SubStr "CDS" f.kind) →
      (∃ f ∈ mutf, SubStr "NCR" f.kind ∨ SubStr "CTS" f.kind) →
      Curation.summary_flag (.full profile idq strain mutf del ins sub ambig acc) = "Flag-NCR") ∧
    (ambig = [] → ¬(∃ f ∈ mutf, SubStr "CDS" f.kind) →
      ¬(∃ f ∈ mutf, SubStr "NCR" f.kind ∨ SubStr "CTS" f.kind) →
      Curation.summary_flag (.full profile idq strain mutf del ins sub ambig acc) = "Pass") ∧
    Curation.summary_flag (.unknown acc) = "Ambig-Seq" := by
  refine ⟨?_, ?_, ?_, ?_, rfl⟩
  · intro ha
    simp [Curation.summary_flag, ha]
  · intro ha hcds
    rw [← any_contains_iff] at hcds
    simp [Curation.summary_flag, ha, hp, hcds]
  · intro ha hcds hncr
    rw [← any_contains_iff] at hcds
    have hncr2 : (mutf.any fun f => strContains f.kind "NCR" || strContains f.kind "CTS") = true := by
      simp only [List.any_eq_true, Bool.or_eq_true, strContains_iff]
      exact hncr
    simp [Curation.summary_flag, ha, hp, hcds, hncr2]
  · intro ha hcds hncr
    rw [← any_contains_iff] at hcds
    have hncr2 : ¬(mutf.any fun f => strContains f.kind "NCR" || strContains f.kind "CTS") = true := by
      simp only [List.any_eq_true, Bool.or_eq_true, strContains_iff]
      exact hncr
    simp [Curation.summary_flag, ha, hp, hcds, hncr2]

theorem summary_flag_precedence_witness :
    Curation.summary_flag (.full "profileA" 1 "strainA"
      [⟨"CDS-del", "4", "3..4", "del", 1⟩] [] [] [] [] "acc") = "Flag-CDS" :=
  (summary_flag_precedence "profileA" "strainA" 1 [⟨"CDS-del", "4", "3..4", "del", 1⟩]
      [] [] [] [] "acc" (by decide)).2.1 rfl
    ⟨⟨"CDS-del", "4", "3..4", "del", 1⟩, by simp, [], "-del".data, by decide⟩

/-- C7: when the classifier returns Unknown the constructor returns the
sentinel state for every possible boundary file, lookup table and alignment
(so nothing after the early return is consulted), and all accessors return
the documented sentinels: `Unknown` for the four flag tables, `Excess-Dist`
for the ambiguity flags, `Ambig-Seq` for the summary.  This is an ordinary
return, not an exception. -/
theorem classifier_unknown_halts (accession strain : String) (sequence : List Char)
    (identity : Option ℚ) (blines llines : List String) (aln : List (List Char)) :
    curationInitCore accession sequence "Unknown" strain identity blines llines aln
      = .ok (.unknown accession) ∧
    Curation.mutation_flags (.unknown accession) = .str "Unknown" ∧
    Curation.deletion_flags (.unknown accession) = .str "Unknown" ∧
    Curation.insertion_flags (.unknown accession) = .str "Unknown" ∧
    Curation.substitution_flags (.unknown accession) = .str "Unknown" ∧
    Curation.ambiguity_flags (.unknown accession) = .str "Excess-Dist" ∧
    Curation.summary_flag (.unknown accession) = "Ambig-Seq" := by
  refine ⟨?_, rfl, rfl, rfl, rfl, rfl, rfl⟩
  simp [curationInitCore]

/-! ## Whitelist check and the deletion-flag region step -/

theorem check_lookup_pass_iff (lookup : List LookupRow) (flag : String) (s e : ℤ) :
    InDelSubs.check_lookup lookup flag s e = "PASS" ↔
      ∃ r ∈ lookup, r.flag = flag ∧ r.start ≤ s ∧ r.rend ≥ e := by
  unfold InDelSubs.check_lookup
  split_ifs with h
  · constructor
    · intro _
      obtain ⟨r, hr⟩ := List.exists_mem_of_length_pos h
      rcases List.mem_filter.mp hr with ⟨hmem, hp⟩
      rcases of_decide_eq_true hp with ⟨h1, h2, h3⟩
      exact ⟨r, hmem, h1, h2, h3⟩
    · intro _
      rfl
  · constructor
    · intro h2
      exact absurd h2 (by decide)
    · rintro ⟨r, hr, h1, h2, h3⟩
      exact absurd (List.length_pos.mpr (List.ne_nil_of_mem
        (List.mem_filter.mpr ⟨hr, by simp [h1, h2, h3]⟩))) h

theorem check_lookup_fail_of_not_pass (lookup : List LookupRow) (flag : String) (s e : ℤ)
    (h : InDelSubs.check_lookup lookup flag s e ≠ "PASS") :
    InDelSubs.check_lookup lookup flag s e = "FAIL" := by
  unfold InDelSubs.check_lookup at *
  split_ifs at h ⊢ with h2
  · exact absurd rfl h
  · rfl

theorem delRegionEmit_CTS5 (lookup : List LookupRow) (posLen : ℕ) (p0 q0 : ℤ) (ps : List ℤ) :
    delRegionEmit lookup posLen (p0 :: ps) q0 "CTS5" =
      .ok [⟨"5\x27CTS-del",
        if posLen > 1 then toString p0 ++ ".." ++ toString (ps.getLastD p0) else toString p0,
        toString q0 ++ ".." ++ toString (q0 + 1), "del", (p0 :: ps).length⟩] := rfl

theorem delRegionEmit_CTS3 (lookup : List LookupRow) (posLen : ℕ) (p0 q0 : ℤ) (ps : List ℤ) :
    delRegionEmit lookup posLen (p0 :: ps) q0 "CTS3" =
      .ok [⟨"3\x27CTS-del",
        if posLen > 1 then toString p0 ++ ".." ++ toString (ps.getLastD p0) else toString p0,
        toString q0 ++ ".." ++ toString (q0 + 1), "del", (p0 :: ps).length⟩] := rfl

theorem delRegionEmit_NCR5 (lookup : List LookupRow) (posLen : ℕ) (p0 q0 : ℤ) (ps : List ℤ) :
    delRegionEmit lookup posLen (p0 :: ps) q0 "NCR5" =
      (if InDelSubs.check_lookup lookup "5\x27NCR-del" p0 (ps.getLastD p0) = "FAIL" then
        .ok [⟨"5\x27NCR-del",
          if posLen > 1 then toString p0 ++ ".." ++ toString (ps.getLastD p0) else toString p0,
          toString q0 ++ ".." ++ toString (q0 + 1), "del", (p0 :: ps).length⟩]
      else .ok []) := rfl

theorem delRegionEmit_NCR3 (lookup : List LookupRow) (posLen : ℕ) (p0 q0 : ℤ) (ps : List ℤ) :
    delRegionEmit lookup posLen (p0 :: ps) q0 "NCR3" =
      (if InDelSubs.check_lookup lookup "3\x27NCR-del" p0 (ps.getLastD p0) = "FAIL" then
        .ok [⟨"3\x27NCR-del",
          if posLen > 1 then toString p0 ++ ".." ++ toString (ps.getLastD p0) else toString p0,
          toString q0 ++ ".." ++ toString (q0 + 1), "del", (p0 :: ps).length⟩]
      else .ok []) := rfl

theorem delRegionEmit_CDS (lookup : List LookupRow) (posLen : ℕ) (p0 q0 : ℤ) (ps : List ℤ) :
    delRegionEmit lookup posLen (p0 :: ps) q0 "CDS" =
      (if posLen % 3 = 0 then
        (if InDelSubs.check_lookup lookup "CDS-3Xdel" p0 (ps.getLastD p0) = "FAIL" then
          .ok [⟨"CDS-3Xdel",
            if posLen > 1 then toString p0 ++ ".." ++ toString (ps.getLastD p0) else toString p0,
            toString q0 ++ ".." ++ toString (q0 + 1), "del", (p0 :: ps).length⟩]
        else .ok [])
      else
        (if InDelSubs.check_lookup lookup "CDS-del" p0 (ps.getLastD p0) = "FAIL" then
          .ok [⟨"CDS-del",
            if posLen > 1 then toString p0 ++ ".." ++ toString (ps.getLastD p0) else toString p0,
            toString q0 ++ ".." ++ toString (q0 + 1), "del", (p0 :: ps).length⟩]
        else .ok [])) := rfl

/-- C2: (i) the whitelist accepts `(flag, start, end)` iff some row with the
same flag label covers the range; (ii) the outcome of a CTS region never
depends on the whitelist; (iii) for the four whitelisted kinds (5-prime and
3-prime NCR-del, CDS-3Xdel, CDS-del), a candidate deletion flag that reached
the emission step is suppressed (empty outcome) iff such a row exists for
the subrun endpoints; (iv) a CTS candidate is never suppressed.  Insertion
and substitution flags take no whitelist input at all (`insertion_flags` and
`substitution_flags` have no `lookup_df` parameter). -/
theorem whitelist_semantics :
    (∀ (lookup : List LookupRow) (flag : String) (s e : ℤ),
      InDelSubs.check_lookup lookup flag s e = "PASS" ↔
        ∃ r ∈ lookup, r.flag = flag ∧ r.start ≤ s ∧ r.rend ≥ e) ∧
    (∀ (L1 L2 : List LookupRow) (nkip nkdp : Finset ℕ) (Lq : ℤ) (posLen : ℕ)
      (profile_del query_del : List ℤ) (reg : RegionRow),
      reg.region = "CTS5" ∨ reg.region = "CTS3" →
      delRegionOutcome L1 nkip nkdp Lq posLen profile_del query_del reg =
        delRegionOutcome L2 nkip nkdp Lq posLen profile_del query_del reg) ∧
    (∀ (lookup : List LookupRow) (posLen : ℕ) (p0 : ℤ) (ps : List ℤ) (q0 : ℤ)
      (regname kind : String),
      (regname = "NCR5" ∧ kind = "5\x27NCR-del") ∨
        (regname = "NCR3" ∧ kind = "3\x27NCR-del") ∨
        (regname = "CDS" ∧ posLen % 3 = 0 ∧ kind = "CDS-3Xdel") ∨
        (regname = "CDS" ∧ posLen % 3 ≠ 0 ∧ kind = "CDS-del") →
      (delRegionEmit lookup posLen (p0 :: ps) q0 regname = .ok [] ↔
        ∃ r ∈ lookup, r.flag = kind ∧ r.start ≤ p0 ∧ r.rend ≥ ps.getLastD p0)) ∧
    (∀ (lookup : List LookupRow) (posLen : ℕ) (p0 : ℤ) (ps : List ℤ) (q0 : ℤ),
      delRegionEmit lookup posLen (p0 :: ps) q0 "CTS5" ≠ .ok [] ∧
      delRegionEmit lookup posLen (p0 :: ps) q0 "CTS3" ≠ .ok []) := by
  refine ⟨check_lookup_pass_iff, ?_, ?_, ?_⟩
  · intro L1 L2 nkip nkdp Lq posLen profile_del query_del reg hr
    unfold delRegionOutcome
    cases hq : regionDelsQ query_del (regPosQ nkip nkdp reg.start) (regPosQ nkip nkdp reg.rend) with
    | nil => simp only [hq]
    | cons q0 qs =>
      simp only [hq]
      by_cases ht : q0 = 0 ∨ q0 = Lq
      · simp [ht]
      · simp only [if_neg ht]
        cases hp : regionDelsP profile_del reg.start reg.rend with
        | nil => rfl
        | cons p0 ps =>
          rcases hr with h | h <;> rw [h]
          · rw [delRegionEmit_CTS5, delRegionEmit_CTS5]
          · rw [delRegionEmit_CTS3, delRegionEmit_CTS3]
  · intro lookup posLen p0 ps q0 regname kind hk
    rcases hk with ⟨hr, hkind⟩ | ⟨hr, hkind⟩ | ⟨hr, h3, hkind⟩ | ⟨hr, h3, hkind⟩ <;>
      subst hr <;> subst hkind
    · rw [delRegionEmit_NCR5]
      by_cases hc : InDelSubs.check_lookup lookup "5\x27NCR-del" p0 (ps.getLastD p0) = "PASS"
      · rw [if_neg (by rw [hc]; decide)]
        exact ⟨fun _ => (check_lookup_pass_iff _ _ _ _).mp hc, fun _ => rfl⟩
      · rw [if_pos (check_lookup_fail_of_not_pass _ _ _ _ hc)]
        exact ⟨fun h => absurd h (by simp),
          fun hex => absurd ((check_lookup_pass_iff _ _ _ _).mpr hex) hc⟩
    · rw [delRegionEmit_NCR3]
      by_cases hc : InDelSubs.check_lookup lookup "3\x27NCR-del" p0 (ps.getLastD p0) = "PASS"
      · rw [if_neg (by rw [hc]; decide)]
        exact ⟨fun _ => (check_lookup_pass_iff _ _ _ _).mp hc, fun _ => rfl⟩
      · rw [if_pos (check_lookup_fail_of_not_pass _ _ _ _ hc)]
        exact ⟨fun h => absurd h (by simp),
          fun hex => absurd ((check_lookup_pass_iff _ _ _ _).mpr hex) hc⟩
    · rw [delRegionEmit_CDS, if_pos h3]
      by_cases hc : InDelSubs.check_lookup lookup "CDS-3Xdel" p0 (ps.getLastD p0) = "PASS"
      · rw [if_neg (by rw [hc]; decide)]
        exact ⟨fun _ => (check_lookup_pass_iff _ _ _ _).mp hc, fun _ => rfl⟩
      · rw [if_pos (check_lookup_fail_of_not_pass _ _ _ _ hc)]
        exact ⟨fun h => absurd h (by simp),
          fun hex => absurd ((check_lookup_pass_iff _ _ _ _).mpr hex) hc⟩
    · rw [delRegionEmit_CDS, if_neg h3]
      by_cases hc : InDelSubs.check_lookup lookup "CDS-del" p0 (ps.getLastD p0) = "PASS"
      · rw [if_neg (by rw [hc]; decide)]
        exact ⟨fun _ => (check_lookup_pass_iff _ _ _ _).mp hc, fun _ => rfl⟩
      · rw [if_pos (check_lookup_fail_of_not_pass _ _ _ _ hc)]
        exact ⟨fun h => absurd h (by simp),
          fun hex => absurd ((check_lookup_pass_iff _ _ _ _).mpr hex) hc⟩
  · intro lookup posLen p0 ps q0
    refine ⟨?_, ?_⟩
    · rw [delRegionEmit_CTS5]; simp
    · rw [delRegionEmit_CTS3]; simp

theorem whitelist_semantics_witness :
    delRegionEmit [⟨"5\x27NCR-del", 1, 10⟩] 1 [2] 5 "NCR5" = .ok [] :=
  (whitelist_semantics.2.2.1 [⟨"5\x27NCR-del", 1, 10⟩] 1 2 [] 5 "NCR5" "5\x27NCR-del"
      (Or.inl ⟨rfl, rfl⟩)).mpr
    ⟨⟨"5\x27NCR-del", 1, 10⟩, by simp, rfl, by decide, by decide⟩

/-- C3: for a deletion run and an intersecting boundary region, when the
subrun list `region_dels_q` is non-empty, the region is skipped (no flag)
exactly when its *first* element equals `0` or equals
`Lq = len(query_seq) - len(nkdp)` (the reconstructed query length); in every
other case processing proceeds to the region-keyed candidate emission
`delRegionEmit` (which may still apply the whitelist).  Only the first
element is consulted: the tail `qs` is arbitrary. -/
theorem terminal_truncation_suppression (lookup : List LookupRow) (nkip nkdp : Finset ℕ)
    (Lq : ℤ) (posLen : ℕ) (profile_del query_del : List ℤ) (reg : RegionRow)
    (q0 : ℤ) (qs : List ℤ)
    (hq : regionDelsQ query_del (regPosQ nkip nkdp reg.start) (regPosQ nkip nkdp reg.rend)
      = q0 :: qs) :
    ((q0 = 0 ∨ q0 = Lq) →
      delRegionOutcome lookup nkip nkdp Lq posLen profile_del query_del reg = .ok []) ∧
    (q0 ≠ 0 → q0 ≠ Lq →
      delRegionOutcome lookup nkip nkdp Lq posLen profile_del query_del reg =
        delRegionEmit lookup posLen (regionDelsP profile_del reg.start reg.rend) q0 reg.region) := by
  constructor
  · intro ht
    unfold delRegionOutcome
    simp only [hq]
    rw [if_pos ht]
  · intro h1 h2
    unfold delRegionOutcome
    simp only [hq]
    rw [if_neg (by rintro (h | h) <;> [exact h1 h; exact h2 h])]

theorem terminal_truncation_suppression_witness :
    delRegionOutcome [] ∅ ∅ 7 1 [2] [0] ⟨"CDS", 0, 5⟩ = .ok [] :=
  (terminal_truncation_suppression [] ∅ ∅ 7 1 [2] [0] ⟨"CDS", 0, 5⟩ 0 [] (by rfl)).1
    (Or.inl rfl)

/-! ## Boundary file selection (C8) -/

/-- C8 (amended): `parse_boundary_file` selects the *first line that starts
with* `strain_name` — a prefix match on the whole line, not an equality test
on the first `|`-separated field — and processes exactly that line; when no
line matches, it fails with an uncaught `KeyError` on `START` (there is no
dedicated StrainNotFound error in the code). -/
theorem boundary_selection (strain_name : String) (lines : List String) :
    ((lines.find? (fun l => startsWithL l.data strain_name.data) = none →
      parse_boundary_file strain_name lines = .error (.keyErr "START")) ∧
     (∀ l, lines.find? (fun l2 => startsWithL l2.data strain_name.data) = some l →
      l ∈ lines ∧ startsWithL l.data strain_name.data = true ∧
        parse_boundary_file strain_name lines = parse_boundary_line l)) := by
  constructor
  · intro h
    unfold parse_boundary_file
    rw [h]
    rfl
  · intro l h
    have hp := List.find?_some h
    refine ⟨List.mem_of_find?_eq_some h, by simpa using hp, ?_⟩
    unfold parse_boundary_file
    rw [h]
    rfl

theorem boundary_selection_witness :
    parse_boundary_file "ZZZ" ["B_1|START=1"] = .error (.keyErr "START") :=
  (boundary_selection "ZZZ" ["B_1|START=1"]).1 (by rfl)

/-- C8 counterexample: with strain id `A_4_H5` and a boundary file whose
only line has first field `A_4_H5N1`, the claim requires failure with
StrainNotFound (no first field equals the strain id), but the code selects
that line by prefix match and succeeds. -/
theorem boundary_selection_counterexample :
    parse_boundary_file "A_4_H5" ["A_4_H5N1|START=1|CTS5=2|ATG=4|STOP=6|CTS3=8|END=9"] =
      .ok [⟨"CTS5", 1, 2⟩, ⟨"NCR5", 3, 3⟩, ⟨"CDS", 4, 6⟩, ⟨"NCR3", 7, 7⟩, ⟨"CTS3", 8, 9⟩] ∧
    ¬((splitOnChar '|' "A_4_H5N1|START=1|CTS5=2|ATG=4|STOP=6|CTS3=8|END=9".data).headD []
        = "A_4_H5".data) := by
  constructor
  · decide
  · decide

/-! ## The supplied-strain-name constructor path (C9) -/

theorem except_bind_error {a b c : Type} (e : a) (f : b → Except a c) :
    (Except.error e >>= f) = Except.error e := rfl

theorem except_bind_ok {a b c : Type} (x : b) (f : b → Except a c) :
    (Except.ok x >>= f) = f x := rfl

/-- C9 (amended): on the supplied-strain path `identity` is never assigned,
so (i) a `Curation` object is produced only in the degenerate case where the
matched profile file is literally named `Unknown` (the early sentinel
return); (ii) whenever the matched profile is not `Unknown`, both reference
files parse and the query sequence is non-empty, the constructor reaches the
ambiguity screen and raises the unbound-variable error on `identity < 0.80`. -/
theorem strain_path_unbound_identity :
    (∀ (files : List String) (strain acc : String) (seq : List Char)
      (blines llines : List String) (aln : List (List Char)) (st : CurState),
      curationInitStrain files strain acc seq blines llines aln = .ok st →
      st = .unknown acc) ∧
    (∀ (files : List String) (strain acc : String) (seq : List Char)
      (blines llines : List String) (aln : List (List Char)) (profile : String)
      (rest : List String) (bdf : List RegionRow) (ldf : List LookupRow),
      files.filter (fun f => startsWithL f.data strain.data) = profile :: rest →
      profile ≠ "Unknown" →
      parse_boundary_file strain blines = .ok bdf →
      parse_lookup_table profile llines = .ok ldf →
      seq ≠ [] →
      curationInitStrain files strain acc seq blines llines aln = .error .unboundLocal) := by
  constructor
  · intro files strain acc seq blines llines aln st h
    unfold curationInitStrain at h
    cases hf : files.filter (fun f => startsWithL f.data strain.data) with
    | nil => rw [hf] at h; exact Except.noConfusion h
    | cons profile rest =>
      rw [hf] at h
      have h2 : curationInitCore acc seq profile strain none blines llines aln = .ok st := h
      unfold curationInitCore at h2
      by_cases hp : profile = "Unknown"
      · rw [if_pos hp] at h2
        exact (Except.ok.inj h2).symm
      · rw [if_neg hp] at h2
        cases hb : parse_boundary_file strain blines with
        | error e => rw [hb, except_bind_error] at h2; exact Except.noConfusion h2
        | ok bdf =>
          rw [hb, except_bind_ok] at h2
          cases hl : parse_lookup_table profile llines with
          | error e => rw [hl, except_bind_error] at h2; exact Except.noConfusion h2
          | ok ldf =>
            rw [hl, except_bind_ok] at h2
            by_cases hs : seq.length = 0
            · rw [if_pos hs] at h2; exact Except.noConfusion h2
            · rw [if_neg hs] at h2; exact Except.noConfusion h2
  · intro files strain acc seq blines llines aln profile rest bdf ldf hf hp hb hl hs
    unfold curationInitStrain
    rw [hf]
    show curationInitCore acc seq profile strain none blines llines aln = _
    unfold curationInitCore
    rw [if_neg hp, hb, except_bind_ok, hl, except_bind_ok,
      if_neg (fun h0 => hs (List.length_eq_zero.mp h0))]

theorem strain_path_unbound_identity_witness :
    curationInitStrain ["P1"] "P" "ACC" ['A']
      ["P|START=1|CTS5=2|ATG=4|STOP=6|CTS3=8|END=9"] [] [] = .error .unboundLocal :=
  strain_path_unbound_identity.2 ["P1"] "P" "ACC" ['A']
    ["P|START=1|CTS5=2|ATG=4|STOP=6|CTS3=8|END=9"] [] [] "P1" []
    [⟨"CTS5", 1, 2⟩, ⟨"NCR5", 3, 3⟩, ⟨"CDS", 4, 6⟩, ⟨"NCR3", 7, 7⟩, ⟨"CTS3", 8, 9⟩]
    [⟨"XXX", -1, -1⟩] (by decide) (by decide) (by decide) (by decide) (by decide)

/-- C9 counterexample: an input on which the supplied-strain path *does*
produce a `Curation` object without raising: the profile directory contains
a file literally named `Unknown`, which the prefix match selects, and the
constructor takes the sentinel early return. -/
theorem strain_path_counterexample :
    curationInitStrain ["Unknown"] "Unknown" "ACC" ['A'] [] [] [] = .ok (.unknown "ACC") := by
  decide

/-! ## Straddling deletion runs (C1, C10 counterexamples) -/

/-- C1 counterexample: one profile row `AAAAAAA`, query `AAA---A` (a single
deletion run of length 3 at columns 3..5, profile positions 4..6) with legal
boundaries CTS5=[1,1], NCR5=[2,2], CDS=[3,4], NCR3=[5,5], CTS3=[6,7] and an
empty whitelist.  The run straddles the CDS end: its full length 3 satisfies
`3 % 3 == 0`, so a `CDS-3Xdel` flag is emitted, but its Length field is the
CDS subrun size 1, which is not a positive multiple of 3. -/
theorem cds_3x_length_counterexample :
    InDelSubs.deletion_flags (mkInDelSubs ["AAAAAAA".data, "AAA---A".data])
        [⟨"CTS5", 1, 1⟩, ⟨"NCR5", 2, 2⟩, ⟨"CDS", 3, 4⟩, ⟨"NCR3", 5, 5⟩, ⟨"CTS3", 6, 7⟩] [] =
      .ok [⟨"CDS-3Xdel", "4..4", "3..4", "del", 1⟩,
        ⟨"3\x27NCR-del", "5..5", "3..4", "del", 1⟩,
        ⟨"3\x27CTS-del", "6..6", "3..4", "del", 1⟩] ∧ ¬(3 ∣ 1) := by
  constructor
  · decide
  · decide

/-- C10 counterexample: profile `AAAAAAA`, query `AAAA--A` (deletion run at
columns 4..5, profile positions 5..6) with the legal boundaries CTS5=[1,1],
NCR5=[2,2], CDS=[3,5], NCR3=[6,5] (empty: CTS3 = STOP+1), CTS3=[6,7].  The
run straddles the empty NCR3 row, whose `region_dels_p` is empty, and the
access `region_dels_p[0]` raises IndexError: `deletion_flags` is not a total
function of its inputs. -/
theorem deletion_flags_partiality_counterexample :
    InDelSubs.deletion_flags (mkInDelSubs ["AAAAAAA".data, "AAAA--A".data])
        [⟨"CTS5", 1, 1⟩, ⟨"NCR5", 2, 2⟩, ⟨"CDS", 3, 5⟩, ⟨"NCR3", 6, 5⟩, ⟨"CTS3", 6, 7⟩] [] =
      .error .idxErr := by
  decide

/-! ## Counting toolkit for the coordinate mappings -/

theorem cntLt_succ (s : Finset ℕ) (j : ℕ) :
    cntLt s (j + 1) = cntLt s j + (if j ∈ s then 1 else 0) := by
  unfold cntLt
  have hsplit : s.filter (fun i => i < j + 1) =
      s.filter (fun i => i < j) ∪ s.filter (fun i => i = j) := by
    rw [← Finset.filter_or]
    apply Finset.filter_congr
    intro x _
    omega
  rw [hsplit, Finset.card_union_of_disjoint]
  · rw [Finset.filter_eq']
    by_cases h : j ∈ s <;> simp [h]
  · rw [Finset.disjoint_left]
    intro x h1 h2
    rcases Finset.mem_filter.mp h1 with ⟨-, hx1⟩
    rcases Finset.mem_filter.mp h2 with ⟨-, hx2⟩
    omega

theorem cntLe_eq_cntLt_add_one (s : Finset ℕ) (j : ℕ) (h : j ∈ s) :
    cntLe s j = cntLt s j + 1 := by
  unfold cntLe cntLt
  have hsplit : s.filter (fun i => i ≤ j) =
      s.filter (fun i => i < j) ∪ s.filter (fun i => i = j) := by
    rw [← Finset.filter_or]
    apply Finset.filter_congr
    intro x _
    omega
  rw [hsplit, Finset.card_union_of_disjoint]
  · rw [Finset.filter_eq']
    simp [h]
  · rw [Finset.disjoint_left]
    intro x h1 h2
    rcases Finset.mem_filter.mp h1 with ⟨-, hx1⟩
    rcases Finset.mem_filter.mp h2 with ⟨-, hx2⟩
    omega

theorem cntLe_eq_cntLt (s : Finset ℕ) (j : ℕ) (h : j ∉ s) :
    cntLe s j = cntLt s j := by
  unfold cntLe cntLt
  have heq : s.filter (fun i => i ≤ j) = s.filter (fun i => i < j) := by
    apply Finset.filter_congr
    intro x hx
    constructor
    · intro hle
      rcases Nat.lt_or_ge x j with h2 | h2
      · exact h2
      · have hxj : x = j := by omega
        exact absurd (hxj ▸ hx) h
    · omega
  rw [heq]

theorem cnt_split (s : Finset ℕ) (p q r : ℕ → Prop) [DecidablePred p] [DecidablePred q]
    [DecidablePred r] (hiff : ∀ x, p x ↔ q x ∨ r x) (hdisj : ∀ x, q x → r x → False) :
    (s.filter p).card = (s.filter q).card + (s.filter r).card := by
  have hu : s.filter p = s.filter q ∪ s.filter r := by
    rw [← Finset.filter_or]
    exact Finset.filter_congr (fun x _ => hiff x)
  rw [hu, Finset.card_union_of_disjoint]
  rw [Finset.disjoint_left]
  intro x h1 h2
  exact hdisj x (Finset.mem_filter.mp h1).2 (Finset.mem_filter.mp h2).2

theorem col_to_prof_lt_of_lt (I : Finset ℕ) (c c2 : ℕ) (hlt : c < c2) (hc : c ∉ I) :
    col_to_prof I c < col_to_prof I c2 := by
  have hsplit := cnt_split I (fun x => x < c2) (fun x => x < c) (fun x => c ≤ x ∧ x < c2)
    (fun x => by omega) (fun x => by omega)
  have hbound : ((I.filter (fun x => c ≤ x ∧ x < c2)).card : ℤ) ≤ (c2 : ℤ) - c - 1 := by
    have hsub : I.filter (fun x => c ≤ x ∧ x < c2) ⊆ (Finset.Ico c c2).erase c := by
      intro x hx
      rcases Finset.mem_filter.mp hx with ⟨hxs, hx1, hx2⟩
      refine Finset.mem_erase.mpr ⟨?_, Finset.mem_Ico.mpr ⟨hx1, hx2⟩⟩
      intro he
      exact hc (he ▸ hxs)
    have h1 := Finset.card_le_card hsub
    have h2 : ((Finset.Ico c c2).erase c).card = c2 - c - 1 := by
      rw [Finset.card_erase_of_mem (Finset.mem_Ico.mpr ⟨le_refl c, hlt⟩), Nat.card_Ico]
    omega
  unfold col_to_prof cntLt
  omega

theorem col_to_prof_le_of_le (I : Finset ℕ) (c c2 : ℕ) (hle : c ≤ c2) (hc : c ∉ I) :
    col_to_prof I c ≤ col_to_prof I c2 := by
  rcases Nat.eq_or_lt_of_le hle with h | h
  · rw [h]
  · exact le_of_lt (col_to_prof_lt_of_lt I c c2 h hc)

theorem profInsPos_lt_col_to_prof (I : Finset ℕ) (i c : ℕ) (hlt : i < c) :
    profInsPos I i < col_to_prof I c := by
  have hsplit := cnt_split I (fun x => x < c) (fun x => x ≤ i) (fun x => i < x ∧ x < c)
    (fun x => by omega) (fun x => by omega)
  have hbound : ((I.filter (fun x => i < x ∧ x < c)).card : ℤ) ≤ (c : ℤ) - i - 1 := by
    have hsub : I.filter (fun x => i < x ∧ x < c) ⊆ Finset.Ioo i c := by
      intro x hx
      rcases Finset.mem_filter.mp hx with ⟨-, hx1, hx2⟩
      exact Finset.mem_Ioo.mpr ⟨hx1, hx2⟩
    have h1 := Finset.card_le_card hsub
    have h2 : (Finset.Ioo i c).card = c - i - 1 := Nat.card_Ioo i c
    omega
  unfold profInsPos col_to_prof cntLe cntLt
  omega

theorem col_to_prof_le_profInsPos (I : Finset ℕ) (c i : ℕ) (hle : c ≤ i) (hc : c ∉ I) :
    col_to_prof I c ≤ profInsPos I i := by
  have hsplit := cnt_split I (fun x => x ≤ i) (fun x => x < c) (fun x => c ≤ x ∧ x ≤ i)
    (fun x => by omega) (fun x => by omega)
  have hbound : ((I.filter (fun x => c ≤ x ∧ x ≤ i)).card : ℤ) ≤ (i : ℤ) - c := by
    have hsub : I.filter (fun x => c ≤ x ∧ x ≤ i) ⊆ (Finset.Icc c i).erase c := by
      intro x hx
      rcases Finset.mem_filter.mp hx with ⟨hxs, hx1, hx2⟩
      refine Finset.mem_erase.mpr ⟨?_, Finset.mem_Icc.mpr ⟨hx1, hx2⟩⟩
      intro he
      exact hc (he ▸ hxs)
    have h1 := Finset.card_le_card hsub
    have h2 : ((Finset.Icc c i).erase c).card = i - c := by
      rw [Finset.card_erase_of_mem (Finset.mem_Icc.mpr ⟨le_refl c, hle⟩), Nat.card_Icc]
      omega
    omega
  unfold profInsPos col_to_prof cntLe cntLt
  omega

theorem col_to_prof_succ (I : Finset ℕ) (c : ℕ) (hc : c ∉ I) :
    col_to_prof I (c + 1) = col_to_prof I c + 1 := by
  unfold col_to_prof
  rw [cntLt_succ]
  simp [hc]
  ring

theorem col_to_prof_add (I : Finset ℕ) (a : ℕ) :
    ∀ u, (∀ v, v ≤ u → a + v ∉ I) →
      col_to_prof I (a + u) = col_to_prof I a + u := by
  intro u
  induction u with
  | zero => intro _; simp
  | succ u ih =>
    intro hall
    have h1 : a + (u + 1) = (a + u) + 1 := by omega
    rw [h1, col_to_prof_succ I (a + u) (hall u (by omega)), ih (fun v hv => hall v (by omega))]
    push_cast
    ring

/-- The preceding query position of a deletion run never exceeds the
query-adjusted image of any profile coordinate `e` at or beyond the run's
first profile position. -/
theorem q0_le_regPosQ (I D : Finset ℕ) (hdisj : ∀ x, x ∈ I → x ∉ D) (a : ℕ) (haD : a ∈ D)
    (e : ℤ) (he : col_to_prof I a ≤ e) :
    col_to_qry D a ≤ regPosQ I D e := by
  have haI : a ∉ I := fun h => hdisj a h haD
  have hq0 : col_to_qry D a = (a : ℤ) - cntLt D a := by
    unfold col_to_qry
    rw [cntLe_eq_cntLt_add_one D a haD]
    ring
  have hsplit := cnt_split D (fun j => col_to_prof I j ≤ e)
    (fun j => col_to_prof I j ≤ e ∧ j < a) (fun j => col_to_prof I j ≤ e ∧ a ≤ j)
    (fun x => ⟨fun h => (Nat.lt_or_ge x a).elim (fun h2 => Or.inl ⟨h, h2⟩)
        (fun h2 => Or.inr ⟨h, h2⟩),
      fun h => h.elim And.left And.left⟩)
    (fun x h1 h2 => by omega)
  have hb1 : (D.filter (fun j => col_to_prof I j ≤ e ∧ j < a)).card ≤
      (D.filter (fun i => i < a)).card := by
    apply Finset.card_le_card
    intro x hx
    rcases Finset.mem_filter.mp hx with ⟨hxD, -, hx2⟩
    exact Finset.mem_filter.mpr ⟨hxD, hx2⟩
  have hb2 : ((D.filter (fun j => col_to_prof I j ≤ e ∧ a ≤ j)).card : ℤ) ≤
      e - col_to_prof I a + 1 := by
    have hmap : ∀ j ∈ D.filter (fun j => col_to_prof I j ≤ e ∧ a ≤ j),
        col_to_prof I j ∈ Finset.Icc (col_to_prof I a) e := by
      intro j hj
      rcases Finset.mem_filter.mp hj with ⟨hjD, hj1, hj2⟩
      exact Finset.mem_Icc.mpr ⟨col_to_prof_le_of_le I a j hj2 haI, hj1⟩
    have hinj : Set.InjOn (fun j => col_to_prof I j)
        (D.filter (fun j => col_to_prof I j ≤ e ∧ a ≤ j)) := by
      intro x hx y hy hxy
      rcases Finset.mem_filter.mp hx with ⟨hxD, -⟩
      rcases Finset.mem_filter.mp hy with ⟨hyD, -⟩
      rcases Nat.lt_trichotomy x y with h | h | h
      · exact absurd hxy (ne_of_lt (col_to_prof_lt_of_lt I x y h (fun hh => hdisj x hh hxD)))
      · exact h
      · exact absurd hxy.symm (ne_of_lt (col_to_prof_lt_of_lt I y x h (fun hh => hdisj y hh hyD)))
    have hcard := Finset.card_le_card_of_injOn (fun j => col_to_prof I j) hmap hinj
    have hicc : (Finset.Icc (col_to_prof I a) e).card = (e + 1 - col_to_prof I a).toNat :=
      Int.card_Icc _ _
    have hnn := Int.toNat_of_nonneg (show (0 : ℤ) ≤ e + 1 - col_to_prof I a by omega)
    omega
  have hbi : (I.filter (fun i => i < a)).card ≤
      (I.filter (fun i => profInsPos I i < e)).card := by
    apply Finset.card_le_card
    intro x hx
    rcases Finset.mem_filter.mp hx with ⟨hxI, hxa⟩
    exact Finset.mem_filter.mpr ⟨hxI, lt_of_lt_of_le (profInsPos_lt_col_to_prof I x a hxa) he⟩
  have hP : col_to_prof I a = (a : ℤ) - ((I.filter (fun i => i < a)).card : ℤ) + 1 := rfl
  rw [hP] at hb2 he
  rw [hq0]
  show (a : ℤ) - cntLt D a ≤
    e + ((I.filter (fun i => profInsPos I i < e)).card : ℤ)
      - ((D.filter (fun j => col_to_prof I j ≤ e)).card : ℤ)
  have hclt : cntLt D a = ((D.filter (fun i => i < a)).card : ℤ) := rfl
  rw [hclt]
  omega

/-- The query-adjusted image of any profile coordinate `s` at or before the
run's last profile position never exceeds the preceding query position. -/
theorem regPosQ_le_q0 (I D : Finset ℕ) (hdisj : ∀ x, x ∈ I → x ∉ D) (a k : ℕ) (hk : 0 < k)
    (hrun : ∀ v, v < k → a + v ∈ D)
    (s : ℤ) (hs : s ≤ col_to_prof I (a + (k - 1))) :
    regPosQ I D s ≤ col_to_qry D a := by
  have haD : a ∈ D := by
    have := hrun 0 hk
    simpa using this
  have haI : a ∉ I := fun h => hdisj a h haD
  have hrunI : ∀ v, v < k → a + v ∉ I := fun v hv h => hdisj (a + v) h (hrun v hv)
  have hq0 : col_to_qry D a = (a : ℤ) - cntLt D a := by
    unfold col_to_qry
    rw [cntLe_eq_cntLt_add_one D a haD]
    ring
  have hpk : col_to_prof I (a + (k - 1)) = col_to_prof I a + ((k - 1 : ℕ) : ℤ) :=
    col_to_prof_add I a (k - 1) (fun v hv => hrunI v (by omega))
  have hP : col_to_prof I a = (a : ℤ) - ((I.filter (fun i => i < a)).card : ℤ) + 1 := rfl
  have hshow : regPosQ I D s =
      s + ((I.filter (fun i => profInsPos I i < s)).card : ℤ)
        - ((D.filter (fun j => col_to_prof I j ≤ s)).card : ℤ) := rfl
  have hclt : cntLt D a = ((D.filter (fun i => i < a)).card : ℤ) := rfl
  rcases lt_or_ge s (col_to_prof I a) with hcase | hcase
  · -- region start strictly before the run: counts on each side balance
    have hbi : (I.filter (fun i => profInsPos I i < s)).card ≤
        (I.filter (fun i => i < a)).card := by
      apply Finset.card_le_card
      intro x hx
      rcases Finset.mem_filter.mp hx with ⟨hxI, hxs⟩
      refine Finset.mem_filter.mpr ⟨hxI, ?_⟩
      by_contra hge
      have := col_to_prof_le_profInsPos I a x (by omega) haI
      omega
    have hsplit := cnt_split D (fun j => j < a)
      (fun j => j < a ∧ col_to_prof I j ≤ s) (fun j => j < a ∧ s < col_to_prof I j)
      (fun x => ⟨fun h => (le_or_lt (col_to_prof I x) s).elim (fun h2 => Or.inl ⟨h, h2⟩)
          (fun h2 => Or.inr ⟨h, h2⟩),
        fun h => h.elim And.left And.left⟩)
      (fun x h1 h2 => by omega)
    have hb1 : (D.filter (fun j => j < a ∧ col_to_prof I j ≤ s)).card ≤
        (D.filter (fun j => col_to_prof I j ≤ s)).card := by
      apply Finset.card_le_card
      intro x hx
      rcases Finset.mem_filter.mp hx with ⟨hxD, -, hx2⟩
      exact Finset.mem_filter.mpr ⟨hxD, hx2⟩
    have hb2 : ((D.filter (fun j => j < a ∧ s < col_to_prof I j)).card : ℤ) ≤
        col_to_prof I a - s - 1 := by
      have hmap : ∀ j ∈ D.filter (fun j => j < a ∧ s < col_to_prof I j),
          col_to_prof I j ∈ Finset.Ioo s (col_to_prof I a) := by
        intro j hj
        rcases Finset.mem_filter.mp hj with ⟨hjD, hj1, hj2⟩
        exact Finset.mem_Ioo.mpr ⟨hj2,
          col_to_prof_lt_of_lt I j a hj1 (fun hh => hdisj j hh hjD)⟩
      have hinj : Set.InjOn (fun j => col_to_prof I j)
          (D.filter (fun j => j < a ∧ s < col_to_prof I j)) := by
        intro x hx y hy hxy
        rcases Finset.mem_filter.mp hx with ⟨hxD, -⟩
        rcases Finset.mem_filter.mp hy with ⟨hyD, -⟩
        rcases Nat.lt_trichotomy x y with h | h | h
        · exact absurd hxy (ne_of_lt (col_to_prof_lt_of_lt I x y h (fun hh => hdisj x hh hxD)))
        · exact h
        · exact absurd hxy.symm (ne_of_lt (col_to_prof_lt_of_lt I y x h (fun hh => hdisj y hh hyD)))
      have hcard := Finset.card_le_card_of_injOn (fun j => col_to_prof I j) hmap hinj
      have hioo : (Finset.Ioo s (col_to_prof I a)).card = (col_to_prof I a - s - 1).toNat :=
        Int.card_Ioo _ _
      have hnn := Int.toNat_of_nonneg (show (0 : ℤ) ≤ col_to_prof I a - s - 1 by omega)
      omega
    rw [hq0, hshow, hclt]
    rw [hP] at hcase
    omega
  · -- region start inside the run: the run itself covers [p0, s]
    have hnn : (0 : ℤ) ≤ s - col_to_prof I a := by omega
    set n : ℕ := (s - col_to_prof I a).toNat with hn
    have hsn : (n : ℤ) = s - col_to_prof I a := Int.toNat_of_nonneg hnn
    have hnk : n ≤ k - 1 := by
      have h1 : (n : ℤ) ≤ ((k - 1 : ℕ) : ℤ) := by omega
      exact_mod_cast h1
    have hU : ((Finset.range (n + 1)).image (fun v => a + v)) ⊆
        D.filter (fun j => col_to_prof I j ≤ s) := by
      intro x hx
      rcases Finset.mem_image.mp hx with ⟨v, hv, rfl⟩
      have hv2 : v ≤ n := by
        have := Finset.mem_range.mp hv
        omega
      have hd : a + v ∈ D := hrun v (by omega)
      have hc : col_to_prof I (a + v) = col_to_prof I a + (v : ℤ) :=
        col_to_prof_add I a v (fun w hw => hrunI w (by omega))
      refine Finset.mem_filter.mpr ⟨hd, ?_⟩
      rw [hc]
      omega
    have hL : (D.filter (fun i => i < a)) ⊆ D.filter (fun j => col_to_prof I j ≤ s) := by
      intro x hx
      rcases Finset.mem_filter.mp hx with ⟨hxD, hxa⟩
      refine Finset.mem_filter.mpr ⟨hxD, ?_⟩
      have := col_to_prof_lt_of_lt I x a hxa (fun hh => hdisj x hh hxD)
      omega
    have hdisj2 : Disjoint (D.filter (fun i => i < a))
        ((Finset.range (n + 1)).image (fun v => a + v)) := by
      rw [Finset.disjoint_left]
      intro x h1 h2
      rcases Finset.mem_filter.mp h1 with ⟨-, hxa⟩
      rcases Finset.mem_image.mp h2 with ⟨v, -, rfl⟩
      omega
    have hcardim : ((Finset.range (n + 1)).image (fun v => a + v)).card = n + 1 := by
      rw [Finset.card_image_of_injective _ (fun x y h => by omega), Finset.card_range]
    have hge : (D.filter (fun i => i < a)).card + (n + 1) ≤
        (D.filter (fun j => col_to_prof I j ≤ s)).card := by
      have h1 := Finset.card_le_card (Finset.union_subset hL hU)
      rw [Finset.card_union_of_disjoint hdisj2, hcardim] at h1
      exact h1
    have hbi : (I.filter (fun i => profInsPos I i < s)).card ≤
        (I.filter (fun i => i < a)).card := by
      apply Finset.card_le_card
      intro x hx
      rcases Finset.mem_filter.mp hx with ⟨hxI, hxs⟩
      refine Finset.mem_filter.mpr ⟨hxI, ?_⟩
      by_contra hge2
      rcases Nat.lt_or_ge (a + (k - 1)) x with hbig | hsmall
      · have := col_to_prof_le_profInsPos I (a + (k - 1)) x (by omega)
          (hrunI (k - 1) (by omega))
        omega
      · have hxv : x = a + (x - a) := by omega
        have hlt : x - a < k := by omega
        exact hdisj x hxI (hxv ▸ hrun (x - a) hlt)
    rw [hq0, hshow, hclt]
    rw [hP] at hcase hsn
    omega

theorem splitRunsGo_mem (xs : List ℕ) : ∀ (prev : ℕ) (cur : List ℕ) (run : List ℕ),
    run ∈ splitRunsGo prev cur xs → ∀ x ∈ run, x ∈ cur ∨ x ∈ xs := by
  induction xs with
  | nil =>
    intro prev cur run hrun x hx
    simp only [splitRunsGo, List.mem_singleton] at hrun
    subst hrun
    exact Or.inl (List.mem_reverse.mp hx)
  | cons y ys ih =>
    intro prev cur run hrun x hx
    simp only [splitRunsGo] at hrun
    by_cases hy : y = prev + 1
    · rw [if_pos hy] at hrun
      rcases ih y (y :: cur) run hrun x hx with h | h
      · rcases List.mem_cons.mp h with h2 | h2
        · exact Or.inr (List.mem_cons.mpr (Or.inl h2))
        · exact Or.inl h2
      · exact Or.inr (List.mem_cons.mpr (Or.inr h))
    · rw [if_neg hy] at hrun
      rcases List.mem_cons.mp hrun with h | h
      · subst h
        exact Or.inl (List.mem_reverse.mp hx)
      · rcases ih y [y] run h x hx with h2 | h2
        · simp only [List.mem_singleton] at h2
          exact Or.inr (List.mem_cons.mpr (Or.inl h2))
        · exact Or.inr (List.mem_cons.mpr (Or.inr h2))

theorem splitRunsGo_shape (xs : List ℕ) : ∀ (a m : ℕ), 0 < m →
    ∀ run ∈ splitRunsGo (a + m - 1) ((List.range' a m).reverse) xs,
      ∃ b j, 0 < j ∧ run = List.range' b j := by
  induction xs with
  | nil =>
    intro a m hm run hrun
    simp only [splitRunsGo, List.mem_singleton] at hrun
    exact ⟨a, m, hm, by simp [hrun]⟩
  | cons y ys ih =>
    intro a m hm run hrun
    simp only [splitRunsGo] at hrun
    by_cases hy : y = (a + m - 1) + 1
    · rw [if_pos hy] at hrun
      have hy2 : y = a + m := by omega
      have hcur : y :: (List.range' a m).reverse = (List.range' a (m + 1)).reverse := by
        rw [List.range'_concat, List.reverse_append]
        simp [hy2]
      rw [hcur] at hrun
      have hy3 : y = a + (m + 1) - 1 := by omega
      rw [hy3] at hrun
      exact ih a (m + 1) (by omega) run hrun
    · rw [if_neg hy] at hrun
      rcases List.mem_cons.mp hrun with h | h
      · exact ⟨a, m, hm, by simp [h]⟩
      · exact ih y 1 (by omega) run h

theorem splitRuns_spec (l : List ℕ) (run : List ℕ) (hrun : run ∈ splitRuns l) :
    (∃ b j, 0 < j ∧ run = List.range' b j) ∧ ∀ x ∈ run, x ∈ l := by
  cases l with
  | nil => simp [splitRuns] at hrun
  | cons x xs =>
    constructor
    · exact splitRunsGo_shape xs x 1 (by omega) run hrun
    · intro z hz
      rcases splitRunsGo_mem xs x [x] run hrun z hz with h | h
      · simp only [List.mem_singleton] at h
        exact List.mem_cons.mpr (Or.inl h)
      · exact List.mem_cons.mpr (Or.inr h)

theorem mem_sortAsc (s : Finset ℕ) (bound x : ℕ) :
    x ∈ sortAsc s bound ↔ x < bound ∧ x ∈ s := by
  simp [sortAsc, List.mem_filter, List.mem_range]

theorem range'_getLastD (m : ℕ) : ∀ (s d : ℕ),
    (List.range' s m).getLastD d = if m = 0 then d else s + m - 1 := by
  induction m with
  | zero => intro s d; rfl
  | succ m ih =>
    intro s d
    rw [List.range'_succ, List.getLastD_cons, ih]
    by_cases hm : m = 0
    · simp [hm]
    · rw [if_neg hm, if_neg (by omega)]
      omega

/-- C10 (amended): the subrun list `region_dels_q` is indeed non-empty for
every deletion run of every alignment and every boundary row passing the
overlap filter `Start <= profile_del[-1] and End >= profile_del[0]`, so the
access `region_dels_q[0]` is always in bounds; nevertheless `deletion_flags`
is *not* a total function of its inputs: the later access
`region_dels_p[0]` is out of bounds when a run straddles a legally-empty
region row (second conjunct: on the C10 counterexample input, the NCR3 row
`[6,5]` intersects the run with profile span 5..6 but `region_dels_p` is
empty). -/
theorem region_dels_q_nonempty (sequences : List (List Char)) (pos : List ℕ)
    (reg : RegionRow) (ph : ℤ) (pt : List ℤ)
    (hpos : pos ∈ (mkInDelSubs sequences).del_groups)
    (hmapeq : pos.map (fun j => col_to_prof (mkInDelSubs sequences).nkip j) = ph :: pt)
    (hs : reg.start ≤ pt.getLastD ph)
    (he : reg.rend ≥ ph) :
    regionDelsQ (pos.map (fun j => col_to_qry (mkInDelSubs sequences).nkdp j))
        (regPosQ (mkInDelSubs sequences).nkip (mkInDelSubs sequences).nkdp reg.start)
        (regPosQ (mkInDelSubs sequences).nkip (mkInDelSubs sequences).nkdp reg.rend) ≠ [] ∧
    regionDelsP (((mkInDelSubs ["AAAAAAA".data, "AAAA--A".data]).del_groups.headD []).map
        (fun j => col_to_prof (mkInDelSubs ["AAAAAAA".data, "AAAA--A".data]).nkip j)) 6 5 = [] := by
  refine ⟨?_, by decide⟩
  set st := mkInDelSubs sequences with hst
  have hdg : st.del_groups =
      splitRuns (sortAsc (st.nkdp \ st.nkadp) (colBound sequences)) := rfl
  rw [hdg] at hpos
  obtain ⟨⟨b, j, hj, hshape⟩, hmem⟩ := splitRuns_spec _ pos hpos
  have hsubD : ∀ x ∈ pos, x ∈ st.nkdp := by
    intro x hx
    have := (mem_sortAsc _ _ _).mp (hmem x hx)
    exact (Finset.mem_sdiff.mp this.2).1
  have hdisj : ∀ x, x ∈ st.nkip → x ∉ st.nkdp := by
    intro x hx
    have hx2 : x ∈ (st.nkip : Finset ℕ) := hx
    have hI : st.nkip = st.nkip := rfl
    -- nkip is a set difference with nkdp by construction
    have : x ∉ st.nkdp := by
      have hdef : (mkInDelSubs sequences).nkip =
          profileDashIntsct sequences.dropLast \ (mkInDelSubs sequences).nkdp := rfl
      rw [hst] at hx2
      rw [hdef] at hx2
      exact (Finset.mem_sdiff.mp hx2).2
    exact this
  obtain ⟨m, rfl⟩ : ∃ m, j = m + 1 := ⟨j - 1, by omega⟩
  have hcons : pos = b :: List.range' (b + 1) m := by
    rw [hshape, List.range'_succ]
  have hrun : ∀ v, v < m + 1 → b + v ∈ st.nkdp := by
    intro v hv
    apply hsubD
    rw [hshape]
    rw [List.mem_range']
    exact ⟨v, hv, by omega⟩
  have hph : ph = col_to_prof st.nkip b := by
    rw [hcons] at hmapeq
    simp only [List.map_cons] at hmapeq
    exact (List.cons.injEq _ _ _ _ ▸ hmapeq).1.symm
  have hpt : pt = (List.range' (b + 1) m).map (fun j => col_to_prof st.nkip j) := by
    rw [hcons] at hmapeq
    simp only [List.map_cons] at hmapeq
    exact (List.cons.injEq _ _ _ _ ▸ hmapeq).2.symm
  have hlast : pt.getLastD ph = col_to_prof st.nkip (b + m) := by
    rw [hpt, hph, List.getLastD_map, range'_getLastD]
    by_cases hm : m = 0
    · simp [hm]
    · rw [if_neg hm]
      congr 1
      omega
  have hkm : b + ((m + 1) - 1) = b + m := by omega
  have hup := q0_le_regPosQ st.nkip st.nkdp hdisj b
    (by simpa using hrun 0 (by omega)) reg.rend (by rw [← hph]; exact he)
  have hlow := regPosQ_le_q0 st.nkip st.nkdp hdisj b (m + 1) (by omega) hrun reg.start
    (by rw [hkm, ← hlast]; exact hs)
  have hmemmap : col_to_qry st.nkdp b ∈
      pos.map (fun j => col_to_qry st.nkdp j) := by
    rw [hcons]
    exact List.mem_map.mpr ⟨b, List.mem_cons.mpr (Or.inl rfl), rfl⟩
  unfold regionDelsQ
  apply List.ne_nil_of_mem
  refine List.mem_filter.mpr ⟨hmemmap, ?_⟩
  exact decide_eq_true ⟨hlow, hup⟩

theorem region_dels_q_nonempty_witness :
    regionDelsQ (([3, 4, 5] : List ℕ).map
        (fun j => col_to_qry (mkInDelSubs ["AAAAAAA".data, "AAA---A".data]).nkdp j))
      (regPosQ (mkInDelSubs ["AAAAAAA".data, "AAA---A".data]).nkip
        (mkInDelSubs ["AAAAAAA".data, "AAA---A".data]).nkdp (3 : ℤ))
      (regPosQ (mkInDelSubs ["AAAAAAA".data, "AAA---A".data]).nkip
        (mkInDelSubs ["AAAAAAA".data, "AAA---A".data]).nkdp (4 : ℤ)) ≠ [] :=
  (region_dels_q_nonempty ["AAAAAAA".data, "AAA---A".data] [3, 4, 5] ⟨"CDS", 3, 4⟩ 4 [5, 6]
    (by decide) (by decide) (by decide) (by decide)).1

/-! ## Coordinate round-trip (C5) -/

theorem range_filter_getElem (p : ℕ → Bool) : ∀ (L c : ℕ), c < L → p c = true →
    ((List.range L).filter p)[((List.range c).filter p).length]? = some c := by
  intro L
  induction L with
  | zero => intro c hc; omega
  | succ L ih =>
    intro c hc hp
    rw [List.range_succ, List.filter_append]
    rcases Nat.lt_or_ge c L with h | h
    · have hin := ih c h hp
      have hlen : ((List.range c).filter p).length < ((List.range L).filter p).length := by
        rcases List.getElem?_eq_some.mp hin with ⟨hlt, -⟩
        exact hlt
      rw [List.getElem?_append_left hlen]
      exact hin
    · have hceq : c = L := by omega
      subst hceq
      have hfil : List.filter p [c] = [c] := by simp [hp]
      rw [hfil]
      exact List.getElem?_concat_length _ _

theorem length_filter_range_not_mem (s : Finset ℕ) : ∀ (c : ℕ),
    (((List.range c).filter (fun x => decide (x ∉ s))).length : ℤ) = (c : ℤ) - cntLt s c := by
  intro c
  induction c with
  | zero =>
    simp [cntLt]
  | succ c ih =>
    rw [List.range_succ, List.filter_append, List.length_append, cntLt_succ]
    by_cases h : c ∈ s
    · have : List.filter (fun x => decide (x ∉ s)) [c] = [] := by simp [h]
      rw [this, if_pos h]
      simp only [List.length_nil]
      push_cast
      omega
    · have : List.filter (fun x => decide (x ∉ s)) [c] = [c] := by simp [h]
      rw [this, if_neg h]
      simp only [List.length_cons, List.length_nil]
      push_cast
      omega

theorem rank_roundtrip (s : Finset ℕ) (L c : ℕ) (hc : c < L) (hs : c ∉ s) :
    ((List.range L).filter (fun x => decide (x ∉ s)))[((c : ℤ) - cntLt s c + 1 - 1).toNat]?
      = some c := by
  have h1 : (c : ℤ) - cntLt s c + 1 - 1 =
      (((List.range c).filter (fun x => decide (x ∉ s))).length : ℤ) := by
    rw [length_filter_range_not_mem]
    ring
  rw [h1, Int.toNat_natCast]
  exact range_filter_getElem _ L c hc (decide_eq_true hs)

/-- C5: on every alignment column `c < L` outside the insertion set,
`col_to_prof` is injective and the rank-based inverse `prof_to_col`
recovers `c`; the analogous round-trip holds for `col_to_qry` on columns
outside the deletion set. -/
theorem coordinate_roundtrip (nkip nkdp : Finset ℕ) (L c : ℕ) (hc : c < L)
    (hI : c ∉ nkip) :
    (∀ c2, c2 < L → c2 ∉ nkip → col_to_prof nkip c2 = col_to_prof nkip c → c2 = c) ∧
    prof_to_col nkip L (col_to_prof nkip c) = some c ∧
    (c ∉ nkdp → qry_to_col nkdp L (col_to_qry nkdp c) = some c) := by
  have hround : ∀ (s : Finset ℕ) (c2 : ℕ), c2 < L → c2 ∉ s →
      ((List.range L).filter (fun x => decide (x ∉ s)))[(col_to_prof s c2 - 1).toNat]?
        = some c2 := by
    intro s c2 hc2 hs2
    exact rank_roundtrip s L c2 hc2 hs2
  refine ⟨?_, ?_, ?_⟩
  · intro c2 hc2 hI2 heq
    have h1 := hround nkip c2 hc2 hI2
    have h2 := hround nkip c hc hI
    rw [heq] at h1
    rw [h1] at h2
    exact Option.some.inj h2
  · exact hround nkip c hc hI
  · intro hD
    have hq : col_to_qry nkdp c = col_to_prof nkdp c := by
      unfold col_to_qry col_to_prof
      rw [cntLe_eq_cntLt nkdp c hD]
    rw [hq]
    exact hround nkdp c hc hD

theorem coordinate_roundtrip_witness :
    prof_to_col {1} 3 (col_to_prof {1} 2) = some 2 :=
  (coordinate_roundtrip {1} ∅ 3 2 (by decide) (by decide)).2.1

theorem kind_ne {s t : String} (h : ¬s = t) {pp qp v : String} {n : ℕ} :
    ¬(FlagRow.mk s pp qp v n).kind = t := h

/-- C1 (amended): among the flags a CDS-classified deletion region emits,
the kind is `CDS-3Xdel` iff the *full run length* `len(pos)` is a multiple
of 3 (`CDS-del` otherwise), but the Length field is the size of the region
subrun `region_dels_p`, which need not be a multiple of 3 when the run
straddles a region boundary; an emitted `CDS-3Xins` insertion flag has kind
`CDS-3Xins` iff the run length is a multiple of 3, and its Length field *is*
the full run length, hence a positive multiple of 3. -/
theorem cds_3x_characterization :
    (∀ (lookup : List LookupRow) (posLen : ℕ) (rdp : List ℤ) (q0 : ℤ)
      (l : List FlagRow) (f : FlagRow),
      delRegionEmit lookup posLen rdp q0 "CDS" = .ok l → f ∈ l →
      ((f.kind = "CDS-3Xdel" ↔ posLen % 3 = 0) ∧ (f.kind = "CDS-del" ↔ posLen % 3 ≠ 0) ∧
        f.length = rdp.length)) ∧
    (∀ (boundary_df : List RegionRow) (profile_length : ℤ) (nkip nkdp : Finset ℕ)
      (query_seq : List Char) (pos : List ℕ) (l : List FlagRow) (f : FlagRow),
      insRunOutcome boundary_df profile_length nkip nkdp query_seq pos = .ok l → f ∈ l →
      (f.kind = "CDS-3Xins" ∨ f.kind = "CDS-ins") →
      ((f.kind = "CDS-3Xins" ↔ pos.length % 3 = 0) ∧ f.length = pos.length ∧
        0 < f.length ∧ (f.kind = "CDS-3Xins" → f.length % 3 = 0))) := by
  constructor
  · intro lookup posLen rdp q0 l f hok hf
    cases rdp with
    | nil => exact absurd hok (by simp [delRegionEmit])
    | cons p0 ps =>
      rw [delRegionEmit_CDS] at hok
      by_cases h3 : posLen % 3 = 0
      · rw [if_pos h3] at hok
        by_cases hcf : InDelSubs.check_lookup lookup "CDS-3Xdel" p0 (ps.getLastD p0) = "FAIL"
        · rw [if_pos hcf] at hok
          have hl := (Except.ok.inj hok).symm
          subst hl
          have hfe := List.mem_singleton.mp hf
          subst hfe
          exact ⟨⟨fun _ => h3, fun _ => rfl⟩,
            ⟨fun h => absurd h (kind_ne (by decide)), fun h => absurd h3 h⟩, rfl⟩
        · rw [if_neg hcf] at hok
          have hl := (Except.ok.inj hok).symm
          subst hl
          simp at hf
      · rw [if_neg h3] at hok
        by_cases hcf : InDelSubs.check_lookup lookup "CDS-del" p0 (ps.getLastD p0) = "FAIL"
        · rw [if_pos hcf] at hok
          have hl := (Except.ok.inj hok).symm
          subst hl
          have hfe := List.mem_singleton.mp hf
          subst hfe
          exact ⟨⟨fun h => absurd h (kind_ne (by decide)), fun h => absurd h h3⟩,
            ⟨fun _ => h3, fun _ => rfl⟩, rfl⟩
        · rw [if_neg hcf] at hok
          have hl := (Except.ok.inj hok).symm
          subst hl
          simp at hf
  · intro boundary_df profile_length nkip nkdp query_seq pos l f hok hf hkind
    cases pos with
    | nil => exact absurd hok (by simp [insRunOutcome])
    | cons p0 ps =>
      simp only [insRunOutcome] at hok
      by_cases h0 : profInsPos nkip p0 = 0
      · rw [if_pos h0] at hok
        have hl := (Except.ok.inj hok).symm
        subst hl
        have hfe := List.mem_singleton.mp hf
        subst hfe
        rcases hkind with h | h <;> exact absurd h (kind_ne (by decide))
      · rw [if_neg h0] at hok
        by_cases hpl : profInsPos nkip p0 = profile_length
        · rw [if_pos hpl] at hok
          have hl := (Except.ok.inj hok).symm
          subst hl
          have hfe := List.mem_singleton.mp hf
          subst hfe
          rcases hkind with h | h <;> exact absurd h (kind_ne (by decide))
        · rw [if_neg hpl] at hok
          cases hh : (boundary_df.filter (fun r =>
              decide (r.start ≤ profInsPos nkip (ps.getLastD p0) ∧
                r.rend ≥ profInsPos nkip p0))).head? with
          | none => simp only [hh] at hok; exact absurd hok (by simp)
          | some reg =>
            simp only [hh] at hok
            by_cases hc5 : reg.region = "CTS5"
            · rw [if_pos hc5] at hok
              have hl := (Except.ok.inj hok).symm
              subst hl
              have hfe := List.mem_singleton.mp hf
              subst hfe
              rcases hkind with h | h <;> exact absurd h (kind_ne (by decide))
            · rw [if_neg hc5] at hok
              by_cases hc3 : reg.region = "CTS3"
              · rw [if_pos hc3] at hok
                have hl := (Except.ok.inj hok).symm
                subst hl
                have hfe := List.mem_singleton.mp hf
                subst hfe
                rcases hkind with h | h <;> exact absurd h (kind_ne (by decide))
              · rw [if_neg hc3] at hok
                by_cases hn5 : reg.region = "NCR5"
                · rw [if_pos hn5] at hok
                  have hl := (Except.ok.inj hok).symm
                  subst hl
                  have hfe := List.mem_singleton.mp hf
                  subst hfe
                  rcases hkind with h | h <;> exact absurd h (kind_ne (by decide))
                · rw [if_neg hn5] at hok
                  by_cases hn3 : reg.region = "NCR3"
                  · rw [if_pos hn3] at hok
                    have hl := (Except.ok.inj hok).symm
                    subst hl
                    have hfe := List.mem_singleton.mp hf
                    subst hfe
                    rcases hkind with h | h <;> exact absurd h (kind_ne (by decide))
                  · rw [if_neg hn3] at hok
                    by_cases hcds : reg.region = "CDS"
                    · rw [if_pos hcds] at hok
                      by_cases h3 : (p0 :: ps).length % 3 = 0
                      · rw [if_pos h3] at hok
                        have hl := (Except.ok.inj hok).symm
                        subst hl
                        have hfe := List.mem_singleton.mp hf
                        subst hfe
                        exact ⟨⟨fun _ => h3, fun _ => rfl⟩, rfl, by simp, fun _ => h3⟩
                      · rw [if_neg h3] at hok
                        have hl := (Except.ok.inj hok).symm
                        subst hl
                        have hfe := List.mem_singleton.mp hf
                        subst hfe
                        exact ⟨⟨fun h => absurd h (kind_ne (by decide)), fun h => absurd h h3⟩,
                          rfl, by simp, fun h => absurd h (kind_ne (by decide))⟩
                    · rw [if_neg hcds] at hok
                      have hl := (Except.ok.inj hok).symm
                      subst hl
                      simp at hf

theorem cds_3x_characterization_witness :
    (("CDS-3Xdel" : String) = "CDS-3Xdel" ↔ 3 % 3 = 0) ∧
    (("CDS-3Xdel" : String) = "CDS-del" ↔ 3 % 3 ≠ 0) ∧
    (FlagRow.mk "CDS-3Xdel" "4..4" "3..4" "del" 1).length = ([4] : List ℤ).length := by
  have h := cds_3x_characterization.1 [] 3 [4] 3
    [⟨"CDS-3Xdel", "4..4", "3..4", "del", 1⟩] ⟨"CDS-3Xdel", "4..4", "3..4", "del", 1⟩
    (by decide) (by simp)
  exact h
